import Mathlib

/-!
# Verification of the `incr` OCR core

A shallow embedding, in Lean 4, of the deterministic post-processing and
orchestration algorithms of the `incr` OCR engine
(`crates/incr-core/src/ocr/…`), together with theorems settling the frozen
claims about it.

Modelling conventions:
* Rust `f32` values are modelled as rationals `ℚ`; the algorithms under
  scrutiny only perform field operations and comparisons, which `f32`
  realises approximately and `ℚ` exactly.  Rust float-to-integer `as` casts
  truncate toward zero and saturate below at `0` for unsigned targets;
  these are modelled explicitly (`ratTruncZ`, `ratTruncNat`).
* Rust `String` values are modelled as `List Char`; `push` is append.
* `Vec::sort_by(cmp)` is a stable sort by a three-way comparator.  It is
  modelled by `List.insertionSort` with the relation `cmp a b ≠ .gt`,
  which is a stable sort for that relation; for the total preorders used
  here the two produce identical output.
* The neural-network inference backend is external to the repository; a
  model-backed component is therefore embedded as the function from its
  input to its observable result.  Pixel-level image operations from the
  external `image` crate (resize, crop, rotate) are likewise abstracted.
  All post-processing logic — the subject of the claims — is translated
  from the source.
-/

namespace Incr

/-- Rust `i32::cmp` (three-way comparison on integers). -/
def cmpZ (a b : ℤ) : Ordering :=
  if a < b then .lt else if b < a then .gt else .eq

/-- Rust `f32::partial_cmp` on finite floats, modelled on `ℚ` (total). -/
def cmpQ (a b : ℚ) : Ordering :=
  if a < b then .lt else if b < a then .gt else .eq

/-- Rust `as i32` cast from a float: truncation toward zero. -/
def ratTruncZ (q : ℚ) : ℤ :=
  if 0 ≤ q then ⌊q⌋ else -⌊-q⌋

/-- Rust `as u32` / `as usize` cast from a non-negative float: truncation
toward zero, saturating at `0` from below. -/
def ratTruncNat (q : ℚ) : ℕ :=
  ⌊q⌋.toNat

/-- Rust `f32::clamp lo hi` (for `lo ≤ hi`). -/
def clampQ (x lo hi : ℚ) : ℚ :=
  min (max x lo) hi

lemma cmpZ_eq_gt {a b : ℤ} : cmpZ a b = .gt ↔ b < a := by
  unfold cmpZ
  split_ifs with h₁ h₂ <;> simp_all
  omega

lemma cmpQ_eq_gt {a b : ℚ} : cmpQ a b = .gt ↔ b < a := by
  unfold cmpQ
  split_ifs with h₁ h₂ <;> simp_all
  exact h₁.le

/-! ## Text recognition: greedy CTC decoding (`ocr/recognizer.rs`)

`TextRecognizer::decode_output` receives logits of shape `[1, T, C]`,
modelled as a list of `T` rows of `C` rationals.  The approximate softmax
confidence uses the float `exp`, which is external to the algorithm's
control flow; it is abstracted as a parameter `expQ`. -/

/-- One recognized text region (`RecognitionResult` in `recognizer.rs`). -/
structure RecognitionResult where
  text : List Char
  confidence : ℚ
  char_scores : List ℚ
  deriving Repr, DecidableEq

/-- The inner argmax loop of `decode_output`: `max_val` starts at negative
infinity (modelled as `none`), and a strictly greater value replaces the
running maximum, so the earliest maximal index wins. -/
def argmaxState (row : List ℚ) : ℕ × Option ℚ :=
  row.enum.foldl
    (fun acc p =>
      match acc.2 with
      | none => (p.1, some p.2)
      | some m => if p.2 > m then (p.1, some p.2) else acc)
    (0, none)

/-- `max_idx` at one timestep of `decode_output`. -/
def argmaxRow (row : List ℚ) : ℕ :=
  (argmaxState row).1

/-- `max_val` at one timestep of `decode_output` (`none` iff the row is
empty, corresponding to the float's negative infinity). -/
def rowMax (row : List ℚ) : Option ℚ :=
  (argmaxState row).2

/-- The approximate softmax confidence of one timestep:
`1 / Σ_c exp(logit_c − max_val)`. -/
def rowConfidence (expQ : ℚ → ℚ) (row : List ℚ) : ℚ :=
  match rowMax row with
  | none => 0
  | some m => 1 / (row.foldl (fun s v => s + expQ (v - m)) 0)

/-- The timestep loop of `decode_output`: accumulators `text`,
`char_scores` and `prev_idx` are threaded through the recursion.  A
character is pushed only when the argmax class is non-blank (`≠ 0`),
differs from the previous raw argmax, and is covered by the dictionary. -/
def decode_output_loop (expQ : ℚ → ℚ) (dictionary : List Char) :
    List (List ℚ) → List Char → List ℚ → ℕ → List Char × List ℚ
  | [], text, char_scores, _ => (text, char_scores)
  | row :: rest, text, char_scores, prev_idx =>
      let max_idx := argmaxRow row
      let confidence := rowConfidence expQ row
      if max_idx ≠ 0 ∧ max_idx ≠ prev_idx then
        match dictionary.get? max_idx with
        | some c =>
            decode_output_loop expQ dictionary rest (text ++ [c])
              (char_scores ++ [confidence]) max_idx
        | none => decode_output_loop expQ dictionary rest text char_scores max_idx
      else decode_output_loop expQ dictionary rest text char_scores max_idx

/-- `TextRecognizer::decode_output` (`recognizer.rs`): greedy CTC decoding
with merge-repeat, followed by the mean of the emitted per-character
confidences (`0` when nothing was decoded). -/
def decode_output (expQ : ℚ → ℚ) (dictionary : List Char)
    (output : List (List ℚ)) : RecognitionResult :=
  let (text, char_scores) := decode_output_loop expQ dictionary output [] [] 0
  let avg_confidence :=
    if char_scores = [] then 0 else char_scores.sum / (char_scores.length : ℚ)
  ⟨text, avg_confidence, char_scores⟩

/-- Spec-side CTC emission rule: starting from a previous raw class of `0`
(blank), a timestep emits its argmax class index iff that index is
non-blank and differs from the previous timestep's raw argmax. -/
def ctcEmittedFrom (prev : ℕ) : List (List ℚ) → List ℕ
  | [] => []
  | row :: rest =>
      let i := argmaxRow row
      if i ≠ 0 ∧ i ≠ prev then i :: ctcEmittedFrom i rest
      else ctcEmittedFrom i rest

/-- Spec-side emitted class indices of a whole logit sequence. -/
def ctcEmitted (output : List (List ℚ)) : List ℕ :=
  ctcEmittedFrom 0 output

lemma decode_output_loop_text (expQ : ℚ → ℚ) (dict : List Char) :
    ∀ (output : List (List ℚ)) (text : List Char) (scores : List ℚ) (prev : ℕ),
      (decode_output_loop expQ dict output text scores prev).1
        = text ++ (ctcEmittedFrom prev output).filterMap (fun i => dict.get? i)
  | [], text, scores, prev => by simp [decode_output_loop, ctcEmittedFrom]
  | row :: rest, text, scores, prev => by
      by_cases h : argmaxRow row ≠ 0 ∧ argmaxRow row ≠ prev
      · cases hc : dict.get? (argmaxRow row) with
        | some c =>
            simp only [decode_output_loop, ctcEmittedFrom, if_pos h, hc,
              List.filterMap_cons, decode_output_loop_text expQ dict rest]
            simp
        | none =>
            simp only [decode_output_loop, ctcEmittedFrom, if_pos h, hc,
              List.filterMap_cons, decode_output_loop_text expQ dict rest]
      · simp only [decode_output_loop, ctcEmittedFrom, if_neg h,
          decode_output_loop_text expQ dict rest]

/-- Dictionary used in the concrete CTC scenarios: class 5 is `'e'`. -/
def ctcDict₀ : List Char := ['#', 'a', 'b', 'c', 'd', 'e']

/-- A logit row whose argmax is class 5. -/
def ctcRow5 : List ℚ := [0, 0, 0, 0, 0, 1]

/-- A logit row whose argmax is the CTC blank (class 0). -/
def ctcRowBlank : List ℚ := [1, 0, 0, 0, 0, 0]

/-- C2: greedy CTC decoding emits a character at a timestep iff the argmax
class is non-blank (index 0) and differs from the immediately preceding
timestep's raw argmax class (the dictionary lookup of each emitted index);
consequently the logit sequence `[class 5, class 5, blank, class 5]`
decodes to the class-5 character exactly twice, and
`[class 5, class 5, class 5]` decodes to it exactly once. -/
theorem ctc_greedy_decode_rule :
    (∀ (expQ : ℚ → ℚ) (dict : List Char) (output : List (List ℚ)),
        (decode_output expQ dict output).text
          = (ctcEmitted output).filterMap (fun i => dict.get? i))
    ∧ (decode_output (fun _ => 1) ctcDict₀
          [ctcRow5, ctcRow5, ctcRowBlank, ctcRow5]).text = ['e', 'e']
    ∧ (decode_output (fun _ => 1) ctcDict₀ [ctcRow5, ctcRow5, ctcRow5]).text = ['e'] := by
  refine ⟨fun expQ dict output => ?_, by decide, by decide⟩
  simpa [decode_output, ctcEmitted] using
    decode_output_loop_text expQ dict output [] [] 0

/-! ## Result data model (`ocr/mod.rs`) -/

/-- A quadrilateral box `[f32; 8]`: corners `(x1,y1) … (x4,y4)`. -/
structure Quad where
  x1 : ℚ
  y1 : ℚ
  x2 : ℚ
  y2 : ℚ
  x3 : ℚ
  y3 : ℚ
  x4 : ℚ
  y4 : ℚ
  deriving Repr, DecidableEq

/-- An axis-aligned box `[f32; 4]`: `(x1, y1, x2, y2)`. -/
structure Rect4 where
  x1 : ℚ
  y1 : ℚ
  x2 : ℚ
  y2 : ℚ
  deriving Repr, DecidableEq

/-- A detected text box (`TextBox` in `ocr/mod.rs`). -/
structure TextBox where
  bbox : Quad
  text : List Char
  detection_score : ℚ
  recognition_score : ℚ
  angle : ℤ
  deriving Repr, DecidableEq

/-- `TextBox::rect`: the axis-aligned bounding rectangle
`(min_x, min_y, max_x, max_y)` of the four corners (the source folds
`f32::min`/`f32::max` over them starting from `±∞`). -/
def TextBox.rect (b : TextBox) : ℚ × ℚ × ℚ × ℚ :=
  (min (min (min b.bbox.x1 b.bbox.x2) b.bbox.x3) b.bbox.x4,
   min (min (min b.bbox.y1 b.bbox.y2) b.bbox.y3) b.bbox.y4,
   max (max (max b.bbox.x1 b.bbox.x2) b.bbox.x3) b.bbox.x4,
   max (max (max b.bbox.y1 b.bbox.y2) b.bbox.y3) b.bbox.y4)

/-- A detected region with bounding box (`RegionBox` in `ocr/mod.rs`). -/
structure RegionBox where
  region_type : List Char
  bbox : Rect4
  confidence : ℚ
  deriving Repr, DecidableEq

/-- Layout information attached to an OCR result (`LayoutInfo`). -/
structure LayoutInfo where
  tables : List RegionBox
  text_regions : List RegionBox
  figures : List RegionBox
  deriving Repr, DecidableEq

/-- Result of OCR processing (`OcrResult` in `ocr/mod.rs`).  The
processing-time field is kept for structural fidelity but always `0` in
the model (wall-clock time is outside the embedding). -/
structure OcrResult where
  boxes : List TextBox
  text : List Char
  processing_time_ms : ℕ
  image_size : ℕ × ℕ
  layout : Option LayoutInfo
  deriving Repr, DecidableEq

/-- `OcrResult::empty`. -/
def OcrResult.empty (width height : ℕ) : OcrResult :=
  { boxes := [], text := [], processing_time_ms := 0,
    image_size := (width, height), layout := none }

/-- The comparator closure of `OcrResult::sort_by_reading_order`: group by
vertical band `(min_y / 20.0) as i32`, then compare the leftmost x within
a band (`partial_cmp` falling back to `Equal`, never needed on `ℚ`). -/
def readingOrderCmp (a b : TextBox) : Ordering :=
  let row_a := ratTruncZ (a.rect.2.1 / 20)
  let row_b := ratTruncZ (b.rect.2.1 / 20)
  if row_a ≠ row_b then cmpZ row_a row_b
  else cmpQ a.rect.1 b.rect.1

/-- The "not greater" relation of `readingOrderCmp`; a stable sort by the
comparator is a stable `insertionSort` by this relation. -/
def readingOrderLe (a b : TextBox) : Prop :=
  readingOrderCmp a b ≠ .gt

instance : DecidableRel readingOrderLe := fun a b => by
  unfold readingOrderLe
  infer_instance

/-- `OcrResult::sort_by_reading_order`: stable-sort the boxes by the
reading-order comparator, then rebuild `text` as the newline-join of the
box texts in the new order. -/
def sort_by_reading_order (r : OcrResult) : OcrResult :=
  let boxes := r.boxes.insertionSort readingOrderLe
  { r with boxes := boxes,
           text := List.intercalate ['\n'] (boxes.map TextBox.text) }

lemma cmpZ_ne_gt {a b : ℤ} : cmpZ a b ≠ .gt ↔ a ≤ b := by
  unfold cmpZ
  split_ifs with h₁ h₂
  · simp
    omega
  · simp
    omega
  · simp
    omega

lemma cmpQ_ne_gt {a b : ℚ} : cmpQ a b ≠ .gt ↔ a ≤ b := by
  unfold cmpQ
  split_ifs with h₁ h₂
  · simp
    exact h₁.le
  · simp
    exact h₂
  · simp
    exact le_of_not_lt h₂

lemma readingOrderLe_iff {a b : TextBox} :
    readingOrderLe a b ↔
      (ratTruncZ (a.rect.2.1 / 20) < ratTruncZ (b.rect.2.1 / 20)
        ∨ (ratTruncZ (a.rect.2.1 / 20) = ratTruncZ (b.rect.2.1 / 20)
            ∧ a.rect.1 ≤ b.rect.1)) := by
  unfold readingOrderLe readingOrderCmp
  by_cases h : ratTruncZ (a.rect.2.1 / 20) = ratTruncZ (b.rect.2.1 / 20)
  · rw [if_neg (not_not.mpr h), cmpQ_ne_gt]
    constructor
    · intro h'
      exact Or.inr ⟨h, h'⟩
    · rintro (h' | ⟨_, h''⟩)
      · exact absurd h (ne_of_lt h')
      · exact h''
  · rw [if_pos h, cmpZ_ne_gt]
    constructor
    · intro h'
      exact Or.inl (lt_of_le_of_ne h' h)
    · rintro (h' | ⟨he, _⟩)
      · exact h'.le
      · exact absurd he h

instance : IsTotal TextBox readingOrderLe := by
  constructor
  intro a b
  rw [readingOrderLe_iff, readingOrderLe_iff]
  rcases lt_trichotomy (ratTruncZ (a.rect.2.1 / 20)) (ratTruncZ (b.rect.2.1 / 20)) with h | h | h
  · exact Or.inl (Or.inl h)
  · rcases le_total a.rect.1 b.rect.1 with h' | h'
    · exact Or.inl (Or.inr ⟨h, h'⟩)
    · exact Or.inr (Or.inr ⟨h.symm, h'⟩)
  · exact Or.inr (Or.inl h)

instance : IsTrans TextBox readingOrderLe := by
  constructor
  intro a b c hab hbc
  rw [readingOrderLe_iff] at hab hbc ⊢
  rcases hab with h₁ | ⟨h₁, h₁'⟩ <;> rcases hbc with h₂ | ⟨h₂, h₂'⟩
  · exact Or.inl (h₁.trans h₂)
  · exact Or.inl (h₂ ▸ h₁)
  · exact Or.inl (h₁ ▸ h₂)
  · exact Or.inr ⟨h₁.trans h₂, h₁'.trans h₂'⟩

/-- C3: immediately after any call to `sort_by_reading_order`, the `text`
field equals the box texts joined with a newline in box order, and a
second call changes neither the box order nor the text (idempotence). -/
theorem sort_by_reading_order_join_and_idempotent :
    ∀ r : OcrResult,
      (sort_by_reading_order r).text
        = List.intercalate ['\n'] ((sort_by_reading_order r).boxes.map TextBox.text)
      ∧ sort_by_reading_order (sort_by_reading_order r) = sort_by_reading_order r := by
  intro r
  have hfix : (r.boxes.insertionSort readingOrderLe).insertionSort readingOrderLe
      = r.boxes.insertionSort readingOrderLe :=
    (List.sorted_insertionSort readingOrderLe r.boxes).insertionSort_eq
  exact ⟨rfl, by simp [sort_by_reading_order, hfix]⟩

/-! ## Image preprocessing (`ocr/preprocessing.rs`) -/

/-- `ImagePreprocessor::calculate_resize_dimensions`: keep the image when
its longer side is at most `target_size`; otherwise scale both sides by
`target_size / max_dim` (float multiply, then trunc-toward-zero `as u32`),
with a lower bound of one pixel per side. -/
def calculate_resize_dimensions (width height target_size : ℕ) : ℕ × ℕ :=
  let max_dim := max width height
  if max_dim ≤ target_size then (width, height)
  else
    let scale : ℚ := (target_size : ℚ) / (max_dim : ℚ)
    let new_width := ratTruncNat ((width : ℚ) * scale)
    let new_height := ratTruncNat ((height : ℚ) * scale)
    (max new_width 1, max new_height 1)

/-- The geometric content of `ImagePreprocessor::preprocess_for_detection`:
resize dimensions, padded tensor dimensions, the per-axis scale factors
returned to the caller, and the original size.  The per-pixel
normalization `(p/255 − mean[c])/std[c]` fills the returned tensor and
carries no geometric information used by any claim. -/
structure DetPreprocess where
  new_width : ℕ
  new_height : ℕ
  pad_width : ℕ
  pad_height : ℕ
  scale_x : ℚ
  scale_y : ℚ
  original_size : ℕ × ℕ
  deriving Repr, DecidableEq

/-- `ImagePreprocessor::preprocess_for_detection` (geometry): resize via
`calculate_resize_dimensions` with the detection target size (960 by
default), then pad each dimension with `((n + 31) / 32) * 32`. -/
def preprocess_for_detection (det_target_size width height : ℕ) : DetPreprocess :=
  let wh := calculate_resize_dimensions width height det_target_size
  { new_width := wh.1, new_height := wh.2,
    pad_width := ((wh.1 + 31) / 32) * 32,
    pad_height := ((wh.2 + 31) / 32) * 32,
    scale_x := (wh.1 : ℚ) / (width : ℚ),
    scale_y := (wh.2 : ℚ) / (height : ℚ),
    original_size := (width, height) }

lemma pad32_spec (n : ℕ) :
    ((n + 31) / 32) * 32 % 32 = 0 ∧ n ≤ ((n + 31) / 32) * 32
    ∧ ((n + 31) / 32) * 32 < n + 32 := by
  omega

lemma ratTruncNat_cast_mul_div_self {t m : ℕ} (hm : 0 < m) :
    ratTruncNat ((m : ℚ) * ((t : ℚ) / (m : ℚ))) = t := by
  have hm' : (m : ℚ) ≠ 0 := Nat.cast_ne_zero.mpr hm.ne'
  have h : (m : ℚ) * ((t : ℚ) / (m : ℚ)) = (t : ℚ) := by field_simp
  rw [ratTruncNat, h]
  simp

lemma ratTruncNat_le_of_le {q : ℚ} {t : ℕ} (h : q ≤ (t : ℚ)) : ratTruncNat q ≤ t := by
  rw [ratTruncNat, Int.toNat_le]
  calc ⌊q⌋ ≤ ⌊(t : ℚ)⌋ := Int.floor_le_floor h
  _ = (t : ℤ) := Int.floor_natCast t

lemma calculate_resize_dimensions_spec (width height target_size : ℕ)
    (hw : 0 < width) (hh : 0 < height) (ht : 0 < target_size) :
    (max width height ≤ target_size →
      calculate_resize_dimensions width height target_size = (width, height))
    ∧ (target_size < max width height →
      max (calculate_resize_dimensions width height target_size).1
          (calculate_resize_dimensions width height target_size).2 = target_size) := by
  constructor
  · intro h
    rw [calculate_resize_dimensions, if_pos h]
  · intro h
    have hmaxpos : 0 < max width height := lt_of_le_of_lt (Nat.zero_le _) h
    have hmq : ((max width height : ℕ) : ℚ) ≠ 0 := Nat.cast_ne_zero.mpr hmaxpos.ne'
    rw [calculate_resize_dimensions, if_neg (not_le.mpr h)]
    have hbound : ∀ a : ℕ, a ≤ max width height →
        ratTruncNat ((a : ℚ) * ((target_size : ℚ) / ((max width height : ℕ) : ℚ)))
          ≤ target_size := by
      intro a ha
      apply ratTruncNat_le_of_le
      have h1 : ((a : ℕ) : ℚ) * ((target_size : ℚ) / ((max width height : ℕ) : ℚ))
          ≤ ((max width height : ℕ) : ℚ) * ((target_size : ℚ) / ((max width height : ℕ) : ℚ)) := by
        apply mul_le_mul_of_nonneg_right
        · exact_mod_cast ha
        · positivity
      have h2 : ((max width height : ℕ) : ℚ) * ((target_size : ℚ) / ((max width height : ℕ) : ℚ))
          = (target_size : ℚ) := by field_simp
      rw [h2] at h1
      exact h1
    rcases le_total height width with hwh | hwh
    · have hmw : max width height = width := Nat.max_eq_left hwh
      have hexact : ratTruncNat ((width : ℚ) * ((target_size : ℚ) / ((max width height : ℕ) : ℚ)))
          = target_size := by
        rw [hmw]
        exact ratTruncNat_cast_mul_div_self (hmw ▸ hmaxpos)
      simp only [hexact]
      have hle := hbound height (le_max_right width height)
      omega
    · have hmw : max width height = height := Nat.max_eq_right hwh
      have hexact : ratTruncNat ((height : ℚ) * ((target_size : ℚ) / ((max width height : ℕ) : ℚ)))
          = target_size := by
        rw [hmw]
        exact ratTruncNat_cast_mul_div_self (hmw ▸ hmaxpos)
      simp only [hexact]
      have hle := hbound width (le_max_left width height)
      omega

/-- C4 counterexample: `preprocess_for_detection` with the default target
size 960 leaves a 500×300 image at 500×300 — it never upscales, so the
longer side (500) does not match the target network size, contradicting
the claim that every image is scaled so its longer side matches 960. -/
theorem preprocess_for_detection_no_upscale_cex :
    (preprocess_for_detection 960 500 300).new_width = 500
    ∧ (preprocess_for_detection 960 500 300).new_height = 300
    ∧ max (preprocess_for_detection 960 500 300).new_width
        (preprocess_for_detection 960 500 300).new_height ≠ 960 := by
  decide

/-- C4 amended: `preprocess_for_detection` keeps the original dimensions
when the longer side is at most the target network size (960 by default);
when the longer side exceeds the target, it downscales (aspect ratio
preserved up to truncation) so that the longer side equals the target
exactly; in both cases width and height are then padded up to the next
multiple of 32. -/
theorem preprocess_for_detection_resize_pad (det_target_size width height : ℕ)
    (hw : 0 < width) (hh : 0 < height) (ht : 0 < det_target_size) :
    (if max width height ≤ det_target_size
      then (preprocess_for_detection det_target_size width height).new_width = width
        ∧ (preprocess_for_detection det_target_size width height).new_height = height
      else max (preprocess_for_detection det_target_size width height).new_width
          (preprocess_for_detection det_target_size width height).new_height
            = det_target_size)
    ∧ (preprocess_for_detection det_target_size width height).pad_width % 32 = 0
    ∧ (preprocess_for_detection det_target_size width height).new_width
        ≤ (preprocess_for_detection det_target_size width height).pad_width
    ∧ (preprocess_for_detection det_target_size width height).pad_width
        < (preprocess_for_detection det_target_size width height).new_width + 32
    ∧ (preprocess_for_detection det_target_size width height).pad_height % 32 = 0
    ∧ (preprocess_for_detection det_target_size width height).new_height
        ≤ (preprocess_for_detection det_target_size width height).pad_height
    ∧ (preprocess_for_detection det_target_size width height).pad_height
        < (preprocess_for_detection det_target_size width height).new_height + 32 := by
  obtain ⟨hkeep, hscale⟩ :=
    calculate_resize_dimensions_spec width height det_target_size hw hh ht
  refine ⟨?_, (pad32_spec _).1, (pad32_spec _).2.1, (pad32_spec _).2.2,
    (pad32_spec _).1, (pad32_spec _).2.1, (pad32_spec _).2.2⟩
  by_cases h : max width height ≤ det_target_size
  · rw [if_pos h]
    have := hkeep h
    constructor
    · show (calculate_resize_dimensions width height det_target_size).1 = width
      rw [this]
    · show (calculate_resize_dimensions width height det_target_size).2 = height
      rw [this]
  · rw [if_neg h]
    exact hscale (not_le.mp h)

/-- C4 amended, witness: a 1920×1080 image with target 960 is downscaled
so its longer side is exactly 960, and both dimensions are padded to
multiples of 32. -/
theorem preprocess_for_detection_resize_pad_witness :
    (0 : ℕ) < 1920 ∧ (0 : ℕ) < 1080 ∧ (0 : ℕ) < 960
    ∧ ((if max 1920 1080 ≤ 960
        then (preprocess_for_detection 960 1920 1080).new_width = 1920
          ∧ (preprocess_for_detection 960 1920 1080).new_height = 1080
        else max (preprocess_for_detection 960 1920 1080).new_width
            (preprocess_for_detection 960 1920 1080).new_height = 960)
      ∧ (preprocess_for_detection 960 1920 1080).pad_width % 32 = 0
      ∧ (preprocess_for_detection 960 1920 1080).new_width
          ≤ (preprocess_for_detection 960 1920 1080).pad_width
      ∧ (preprocess_for_detection 960 1920 1080).pad_width
          < (preprocess_for_detection 960 1920 1080).new_width + 32
      ∧ (preprocess_for_detection 960 1920 1080).pad_height % 32 = 0
      ∧ (preprocess_for_detection 960 1920 1080).new_height
          ≤ (preprocess_for_detection 960 1920 1080).pad_height
      ∧ (preprocess_for_detection 960 1920 1080).pad_height
          < (preprocess_for_detection 960 1920 1080).new_height + 32) :=
  ⟨by decide, by decide, by decide,
    preprocess_for_detection_resize_pad 960 1920 1080 (by decide) (by decide) (by decide)⟩

/-! ## Layout analysis (`ocr/layout.rs`) -/

/-- Layout region types (`LayoutType`). -/
inductive LayoutType where
  | text
  | title
  | list
  | table
  | figure
  | unknown
  deriving Repr, DecidableEq

/-- `LayoutType::from_publaynet_class`. -/
def LayoutType.from_publaynet_class (class_id : ℕ) : LayoutType :=
  match class_id with
  | 0 => .text
  | 1 => .title
  | 2 => .list
  | 3 => .table
  | 4 => .figure
  | _ => .unknown

/-- `LayoutType::from_cdla_class` (captions, headers, footers, references
and equations fold into text/title). -/
def LayoutType.from_cdla_class (class_id : ℕ) : LayoutType :=
  match class_id with
  | 0 => .text
  | 1 => .figure
  | 2 => .text
  | 3 => .table
  | 4 => .text
  | 5 => .title
  | 6 => .text
  | 7 => .text
  | 8 => .text
  | _ => .unknown

/-- `LayoutType::is_table`. -/
def LayoutType.is_table (t : LayoutType) : Bool :=
  match t with
  | .table => true
  | _ => false

/-- `LayoutType::is_text`. -/
def LayoutType.is_text (t : LayoutType) : Bool :=
  match t with
  | .text | .title | .list => true
  | _ => false

/-- A detected layout region (`LayoutRegion`). -/
structure LayoutRegion where
  region_type : LayoutType
  bbox : Rect4
  confidence : ℚ
  deriving Repr, DecidableEq

/-- `LayoutRegion::width`. -/
def LayoutRegion.width (r : LayoutRegion) : ℚ :=
  r.bbox.x2 - r.bbox.x1

/-- `LayoutRegion::height`. -/
def LayoutRegion.height (r : LayoutRegion) : ℚ :=
  r.bbox.y2 - r.bbox.y1

/-- `LayoutRegion::area`. -/
def LayoutRegion.area (r : LayoutRegion) : ℚ :=
  r.width * r.height

/-- `LayoutRegion::iou`: intersection-over-union of two regions. -/
def LayoutRegion.iou (a other : LayoutRegion) : ℚ :=
  let x1 := max a.bbox.x1 other.bbox.x1
  let y1 := max a.bbox.y1 other.bbox.y1
  let x2 := min a.bbox.x2 other.bbox.x2
  let y2 := min a.bbox.y2 other.bbox.y2
  if x2 < x1 ∨ y2 < y1 then 0
  else
    let intersection := (x2 - x1) * (y2 - y1)
    let uni := a.area + other.area - intersection
    if uni > 0 then intersection / uni else 0

/-- Layout detection result (`LayoutResult`). -/
structure LayoutResult where
  regions : List LayoutRegion
  image_size : ℕ × ℕ
  deriving Repr, DecidableEq

/-- `LayoutResult::tables`. -/
def LayoutResult.tables (r : LayoutResult) : List LayoutRegion :=
  r.regions.filter (fun g => g.region_type.is_table)

/-- `LayoutResult::text_regions`. -/
def LayoutResult.text_regions (r : LayoutResult) : List LayoutRegion :=
  r.regions.filter (fun g => g.region_type.is_text)

/-- The descending-confidence relation used by `LayoutDetector::nms`'s
`sort_by` call (comparator `b.confidence.partial_cmp(&a.confidence)`). -/
def nmsSortLe (a b : LayoutRegion) : Prop :=
  cmpQ b.confidence a.confidence ≠ .gt

instance : DecidableRel nmsSortLe := fun a b => by
  unfold nmsSortLe
  infer_instance

/-- `LayoutDetector::nms`: sort candidates by confidence descending, then
repeatedly `pop()` from the END of the vector (lowest confidence first),
keeping a candidate unless it overlaps a kept region of the same type
with IoU above the threshold. -/
def nms (nms_threshold : ℚ) (regions : List LayoutRegion) : List LayoutRegion :=
  let sorted := regions.insertionSort nmsSortLe
  sorted.reverse.foldl
    (fun keep region =>
      if keep.any (fun kept =>
          decide (kept.region_type = region.region_type
            ∧ region.iou kept > nms_threshold))
      then keep
      else keep ++ [region])
    []

/-- Two fully overlapping text candidates used to exercise `nms`. -/
def nmsRegionHigh : LayoutRegion :=
  ⟨.text, ⟨0, 0, 10, 10⟩, 9/10⟩

/-- Same box and type as `nmsRegionHigh`, lower confidence. -/
def nmsRegionLow : LayoutRegion :=
  ⟨.text, ⟨0, 0, 10, 10⟩, 8/10⟩

/-- Same box as `nmsRegionHigh` but of a different type (figure). -/
def nmsRegionFig : LayoutRegion :=
  ⟨.figure, ⟨0, 0, 10, 10⟩, 8/10⟩

/-- C1: because `nms` sorts descending but then consumes candidates with
`Vec::pop` (which removes from the END of the vector), the greedy pass
visits candidates in ASCENDING confidence order, so of two same-type
candidates with IoU above the threshold the LOWER-confidence one is kept
and the higher-confidence one is suppressed — the opposite of the claim
and of the code's own "sort by confidence descending" intent.  Two
overlapping candidates of different types are indeed both retained. -/
theorem nms_keeps_lower_confidence :
    nms (1/2) [nmsRegionHigh, nmsRegionLow] = [nmsRegionLow]
    ∧ nmsRegionLow.confidence < nmsRegionHigh.confidence
    ∧ nmsRegionHigh.iou nmsRegionLow > 1/2
    ∧ nmsRegionHigh.region_type = nmsRegionLow.region_type
    ∧ nms (1/2) [nmsRegionHigh, nmsRegionFig] = [nmsRegionFig, nmsRegionHigh] := by
  with_unfolding_all decide

/-! ## Table structure recognition (`ocr/table.rs`)

`TableRecognizer::decode_tokens` walks the structural token stream with a
`(row, col)` cursor.  `TableRecognizer::post_process` passes the returned
`(cells, num_rows, num_cols)` triple into the `TableStructure` unchanged,
so the claimed invariant is a property of `decode_tokens`. -/

/-- A table cell (`TableCell` in `table.rs`). -/
structure TableCell where
  row : ℕ
  col : ℕ
  row_span : ℕ
  col_span : ℕ
  bbox : Rect4
  content : List Char
  confidence : ℚ
  deriving Repr, DecidableEq

/-- The mutable state of the `decode_tokens` loop. -/
structure DecodeState where
  cells : List TableCell
  current_row : ℕ
  current_col : ℕ
  max_cols : ℕ
  cell_idx : ℕ
  in_cell : Bool
  cell_row_span : ℕ
  cell_col_span : ℕ
  deriving Repr, DecidableEq

/-- The bbox assigned at cell-close: the next unconsumed row of the bbox
tensor scaled back to image coordinates, or zeros when the tensor is
absent or exhausted. -/
def cellBbox (bbox_data : Option (List Rect4)) (scale_x scale_y : ℚ)
    (cell_idx : ℕ) : Rect4 :=
  match bbox_data with
  | some arr =>
      match arr.get? cell_idx with
      | some r => ⟨r.x1 / scale_x, r.y1 / scale_y, r.x2 / scale_x, r.y2 / scale_y⟩
      | none => ⟨0, 0, 0, 0⟩
  | none => ⟨0, 0, 0, 0⟩

/-- One iteration of the `decode_tokens` match: row-open (5) resets the
column cursor; row-close (6) records the widest row and advances the row
cursor; cell-open (3) resets the pending spans; cell-close (4) emits a
`TableCell` and advances the column cursor by its column span; tokens in
`[7, 20)` and `[20, 33)` set the pending column/row span clamped to
`[1, 10]`; everything else is ignored. -/
def decode_step (bbox_data : Option (List Rect4)) (scale_x scale_y : ℚ)
    (st : DecodeState) (token : ℤ) : DecodeState :=
  if token = 5 then { st with current_col := 0 }
  else if token = 6 then
    { st with max_cols := max st.max_cols st.current_col,
              current_row := st.current_row + 1 }
  else if token = 3 then
    { st with in_cell := true, cell_row_span := 1, cell_col_span := 1 }
  else if token = 4 then
    if st.in_cell then
      { st with
          cells := st.cells ++ [⟨st.current_row, st.current_col,
            st.cell_row_span, st.cell_col_span,
            cellBbox bbox_data scale_x scale_y st.cell_idx, [], 1⟩],
          current_col := st.current_col + st.cell_col_span,
          cell_idx := st.cell_idx + 1,
          in_cell := false }
    else st
  else if 7 ≤ token ∧ token < 20 then
    { st with cell_col_span := min (max (token - 7).toNat 1) 10 }
  else if 20 ≤ token ∧ token < 33 then
    { st with cell_row_span := min (max (token - 20).toNat 1) 10 }
  else st

/-- `TableRecognizer::decode_tokens`: fold the step over the tokens up to
the first end-of-sequence token (2), then return the cells together with
`num_rows = max current_row 1` and `num_cols = max max_cols 1`. -/
def decode_tokens (tokens : List ℤ) (bbox_data : Option (List Rect4))
    (scale_x scale_y : ℚ) : List TableCell × ℕ × ℕ :=
  let final := (tokens.takeWhile (fun t => t ≠ 2)).foldl
    (decode_step bbox_data scale_x scale_y) ⟨[], 0, 0, 0, 0, false, 1, 1⟩
  (final.cells, max final.current_row 1, max final.max_cols 1)

/-- C8 counterexample: the decoded stream `⟨tr⟩ ⟨td rowspan=2⟩ ⟨/td⟩
⟨/tr⟩ ⟨eos⟩` (tokens `[5, 3, 22, 4, 6, 2]`) yields a single-row table
whose only cell has `row + row_span = 2 > num_rows = 1`; and the
row-less stream `[3, 4, 3, 4]` yields a cell with
`col + col_span = 2 > num_cols = 1`. -/
theorem decode_tokens_span_invariant_cex :
    (∃ c ∈ (decode_tokens [5, 3, 22, 4, 6, 2] none 1 1).1,
        (decode_tokens [5, 3, 22, 4, 6, 2] none 1 1).2.1 < c.row + c.row_span)
    ∧ (∃ c ∈ (decode_tokens [3, 4, 3, 4] none 1 1).1,
        (decode_tokens [3, 4, 3, 4] none 1 1).2.2 < c.col + c.col_span) := by
  with_unfolding_all decide

/-- One cell chunk of a well-formed structural-token stream: cell-open,
a run of span-marker (or otherwise ignored) tokens, cell-close. -/
def cellTokens (spans : List ℤ) : List ℤ :=
  3 :: spans ++ [4]

/-- One complete row of a well-formed stream: row-open, the row's cell
chunks, row-close. -/
def rowTokens (row : List (List ℤ)) : List ℤ :=
  5 :: (row.map cellTokens).flatten ++ [6]

/-- A well-formed stream: a concatenation of complete rows. -/
def tableTokens (rows : List (List (List ℤ))) : List ℤ :=
  (rows.map rowTokens).flatten

/-- The control tokens of the decoder: end-of-sequence, cell open/close,
row open/close. -/
def structuralToken (t : ℤ) : Prop :=
  t = 2 ∨ t = 3 ∨ t = 4 ∨ t = 5 ∨ t = 6

instance : DecidablePred structuralToken := fun t => by
  unfold structuralToken
  infer_instance

lemma decode_step_nonstructural (bd : Option (List Rect4)) (sx sy : ℚ)
    {t : ℤ} (ht : ¬ structuralToken t) (st : DecodeState) :
    decode_step bd sx sy st t
      = if 7 ≤ t ∧ t < 20 then
          { st with cell_col_span := min (max (t - 7).toNat 1) 10 }
        else if 20 ≤ t ∧ t < 33 then
          { st with cell_row_span := min (max (t - 20).toNat 1) 10 }
        else st := by
  rw [structuralToken] at ht
  push_neg at ht
  obtain ⟨h2, h3, h4, h5, h6⟩ := ht
  rw [decode_step, if_neg h5, if_neg h6, if_neg h3, if_neg h4]

lemma spans_foldl (bd : Option (List Rect4)) (sx sy : ℚ) :
    ∀ (spans : List ℤ) (st : DecodeState),
      (∀ t ∈ spans, ¬ structuralToken t) →
      1 ≤ st.cell_row_span → st.cell_row_span ≤ 10 →
      1 ≤ st.cell_col_span → st.cell_col_span ≤ 10 →
      ∃ rs cs, 1 ≤ rs ∧ rs ≤ 10 ∧ 1 ≤ cs ∧ cs ≤ 10 ∧
        spans.foldl (decode_step bd sx sy) st
          = { st with cell_row_span := rs, cell_col_span := cs }
  | [], st, _, h1, h2, h3, h4 =>
      ⟨st.cell_row_span, st.cell_col_span, h1, h2, h3, h4, rfl⟩
  | t :: rest, st, hns, h1, h2, h3, h4 => by
      have ht := hns t (by simp)
      have hrest : ∀ u ∈ rest, ¬ structuralToken u :=
        fun u hu => hns u (by simp [hu])
      rw [List.foldl_cons, decode_step_nonstructural bd sx sy ht]
      by_cases hc : 7 ≤ t ∧ t < 20
      · rw [if_pos hc]
        obtain ⟨rs, cs, hr1, hr2, hc1, hc2, heq⟩ :=
          spans_foldl bd sx sy rest
            { st with cell_col_span := min (max (t - 7).toNat 1) 10 }
            hrest h1 h2 (by simp) (by simp)
        exact ⟨rs, cs, hr1, hr2, hc1, hc2, by rw [heq]⟩
      · rw [if_neg hc]
        by_cases hc' : 20 ≤ t ∧ t < 33
        · rw [if_pos hc']
          obtain ⟨rs, cs, hr1, hr2, hc1, hc2, heq⟩ :=
            spans_foldl bd sx sy rest
              { st with cell_row_span := min (max (t - 20).toNat 1) 10 }
              hrest (by simp) (by simp) h3 h4
          exact ⟨rs, cs, hr1, hr2, hc1, hc2, by rw [heq]⟩
        · rw [if_neg hc']
          exact spans_foldl bd sx sy rest st hrest h1 h2 h3 h4

lemma cellTokens_foldl (bd : Option (List Rect4)) (sx sy : ℚ)
    (spans : List ℤ) (st : DecodeState)
    (hns : ∀ t ∈ spans, ¬ structuralToken t) :
    ∃ rs cs, 1 ≤ rs ∧ rs ≤ 10 ∧ 1 ≤ cs ∧ cs ≤ 10 ∧
      (cellTokens spans).foldl (decode_step bd sx sy) st
        = { st with
            cells := st.cells ++ [⟨st.current_row, st.current_col, rs, cs,
              cellBbox bd sx sy st.cell_idx, [], 1⟩],
            current_col := st.current_col + cs,
            cell_idx := st.cell_idx + 1,
            in_cell := false,
            cell_row_span := rs,
            cell_col_span := cs } := by
  obtain ⟨rs, cs, h1, h2, h3, h4, heq⟩ :=
    spans_foldl bd sx sy spans
      { st with in_cell := true, cell_row_span := 1, cell_col_span := 1 }
      hns (by simp) (by simp) (by simp) (by simp)
  refine ⟨rs, cs, h1, h2, h3, h4, ?_⟩
  show ((3 :: (spans ++ [4])).foldl (decode_step bd sx sy) st) = _
  rw [List.foldl_cons,
    show decode_step bd sx sy st 3
      = { st with in_cell := true, cell_row_span := 1, cell_col_span := 1 } from rfl,
    List.foldl_append, heq]
  rfl

lemma rowCells_foldl (bd : Option (List Rect4)) (sx sy : ℚ) :
    ∀ (rowc : List (List ℤ)) (st : DecodeState),
      (∀ cell ∈ rowc, ∀ t ∈ cell, ¬ structuralToken t) →
      ∃ (newCells : List TableCell) (d : ℕ) (b : Bool) (rs cs : ℕ),
        ((rowc.map cellTokens).flatten).foldl (decode_step bd sx sy) st
          = { st with cells := st.cells ++ newCells,
                      current_col := st.current_col + d,
                      cell_idx := st.cell_idx + newCells.length,
                      in_cell := b,
                      cell_row_span := rs, cell_col_span := cs }
        ∧ ∀ c ∈ newCells,
            c.row = st.current_row
            ∧ c.col + c.col_span ≤ st.current_col + d
            ∧ 1 ≤ c.row_span ∧ c.row_span ≤ 10 ∧ 1 ≤ c.col_span ∧ c.col_span ≤ 10
  | [], st, _ =>
      ⟨[], 0, st.in_cell, st.cell_row_span, st.cell_col_span,
        by cases st; simp, by simp⟩
  | chunk :: rest, st, hns => by
      have hc := hns chunk (by simp)
      have hrest : ∀ cell ∈ rest, ∀ t ∈ cell, ¬ structuralToken t :=
        fun cell hcell => hns cell (by simp [hcell])
      obtain ⟨rs, cs, h1, h2, h3, h4, heq⟩ := cellTokens_foldl bd sx sy chunk st hc
      obtain ⟨newCells, d, b, rs', cs', heq', hprop⟩ :=
        rowCells_foldl bd sx sy rest
          { st with
              cells := st.cells ++ [⟨st.current_row, st.current_col, rs, cs,
                cellBbox bd sx sy st.cell_idx, [], 1⟩],
              current_col := st.current_col + cs,
              cell_idx := st.cell_idx + 1,
              in_cell := false,
              cell_row_span := rs,
              cell_col_span := cs } hrest
      refine ⟨⟨st.current_row, st.current_col, rs, cs,
          cellBbox bd sx sy st.cell_idx, [], 1⟩ :: newCells,
        cs + d, b, rs', cs', ?_, ?_⟩
      · show ((cellTokens chunk ++ (rest.map cellTokens).flatten).foldl
            (decode_step bd sx sy) st) = _
        rw [List.foldl_append, heq, heq']
        cases st
        simp [DecodeState.mk.injEq]
        omega
      · intro c hc'
        rcases List.mem_cons.mp hc' with hhead | htail
        · subst hhead
          refine ⟨rfl, ?_, h1, h2, h3, h4⟩
          show st.current_col + cs ≤ st.current_col + (cs + d)
          omega
        · obtain ⟨hr, hcol, hb⟩ := hprop c htail
          refine ⟨hr, ?_, hb⟩
          simp only [] at hcol
          have hcol' : c.col + c.col_span ≤ (st.current_col + cs) + d := hcol
          omega

lemma rowTokens_foldl (bd : Option (List Rect4)) (sx sy : ℚ)
    (row : List (List ℤ)) (st : DecodeState)
    (hns : ∀ cell ∈ row, ∀ t ∈ cell, ¬ structuralToken t) :
    ∃ (newCells : List TableCell) (d : ℕ) (b : Bool) (rs cs : ℕ),
      (rowTokens row).foldl (decode_step bd sx sy) st
        = { st with cells := st.cells ++ newCells,
                    current_row := st.current_row + 1,
                    current_col := d,
                    max_cols := max st.max_cols d,
                    cell_idx := st.cell_idx + newCells.length,
                    in_cell := b, cell_row_span := rs, cell_col_span := cs }
      ∧ ∀ c ∈ newCells,
          c.row = st.current_row ∧ c.col + c.col_span ≤ d
          ∧ 1 ≤ c.row_span ∧ c.row_span ≤ 10 ∧ 1 ≤ c.col_span ∧ c.col_span ≤ 10 := by
  obtain ⟨newCells, d, b, rs, cs, heq, hprop⟩ :=
    rowCells_foldl bd sx sy row { st with current_col := 0 } hns
  refine ⟨newCells, 0 + d, b, rs, cs, ?_, ?_⟩
  · show ((5 :: ((row.map cellTokens).flatten ++ [6])).foldl
        (decode_step bd sx sy) st) = _
    rw [List.foldl_cons,
      show decode_step bd sx sy st 5 = { st with current_col := 0 } from rfl,
      List.foldl_append, heq]
    rfl
  · intro c hc
    exact hprop c hc

/-- The invariant holding at row boundaries of the decoding loop. -/
def cellsInv (st : DecodeState) : Prop :=
  ∀ c ∈ st.cells,
    c.row < st.current_row ∧ c.col + c.col_span ≤ st.max_cols
    ∧ 1 ≤ c.row_span ∧ c.row_span ≤ 10 ∧ 1 ≤ c.col_span ∧ c.col_span ≤ 10

lemma tableTokens_foldl_inv (bd : Option (List Rect4)) (sx sy : ℚ) :
    ∀ (rows : List (List (List ℤ))) (st : DecodeState),
      (∀ row ∈ rows, ∀ cell ∈ row, ∀ t ∈ cell, ¬ structuralToken t) →
      cellsInv st →
      cellsInv ((tableTokens rows).foldl (decode_step bd sx sy) st)
  | [], _, _, hinv => hinv
  | r :: rest, st, hns, hinv => by
      have hr := hns r (by simp)
      have hrest : ∀ row ∈ rest, ∀ cell ∈ row, ∀ t ∈ cell, ¬ structuralToken t :=
        fun row hrow => hns row (by simp [hrow])
      obtain ⟨newCells, d, b, rs, cs, heq, hprop⟩ := rowTokens_foldl bd sx sy r st hr
      have hstep : (tableTokens (r :: rest)).foldl (decode_step bd sx sy) st
          = (tableTokens rest).foldl (decode_step bd sx sy)
              ((rowTokens r).foldl (decode_step bd sx sy) st) := by
        show ((rowTokens r ++ tableTokens rest).foldl (decode_step bd sx sy) st) = _
        rw [List.foldl_append]
      rw [hstep, heq]
      apply tableTokens_foldl_inv bd sx sy rest _ hrest
      intro c hc
      rcases List.mem_append.mp hc with hold | hnew
      · obtain ⟨i1, i2, i3⟩ := hinv c hold
        exact ⟨Nat.lt_succ_of_lt i1, le_trans i2 (Nat.le_max_left _ _), i3⟩
      · obtain ⟨i1, i2, i3⟩ := hprop c hnew
        refine ⟨?_, le_trans i2 (Nat.le_max_right _ _), i3⟩
        show c.row < st.current_row + 1
        omega

lemma takeWhile_eq_self_of_all {α : Type} (p : α → Bool) :
    ∀ (l : List α), (∀ a ∈ l, p a = true) → l.takeWhile p = l
  | [], _ => rfl
  | a :: l, h => by
      rw [List.takeWhile_cons, h a (by simp), if_pos rfl,
        takeWhile_eq_self_of_all p l (fun b hb => h b (by simp [hb]))]

lemma tableTokens_ne_two (rows : List (List (List ℤ)))
    (hns : ∀ row ∈ rows, ∀ cell ∈ row, ∀ t ∈ cell, ¬ structuralToken t) :
    ∀ t ∈ tableTokens rows, t ≠ 2 := by
  intro t ht
  rw [tableTokens, List.mem_flatten] at ht
  obtain ⟨l, hl, htl⟩ := ht
  rw [List.mem_map] at hl
  obtain ⟨row, hrow, rfl⟩ := hl
  rw [rowTokens] at htl
  rcases List.mem_cons.mp htl with h5 | h'
  · subst h5
    decide
  rcases List.mem_append.mp h' with hmid | h6
  · rw [List.mem_flatten] at hmid
    obtain ⟨cl, hcl, htcl⟩ := hmid
    rw [List.mem_map] at hcl
    obtain ⟨cell, hcell, rfl⟩ := hcl
    rw [cellTokens] at htcl
    rcases List.mem_cons.mp htcl with h3 | h''
    · subst h3
      decide
    rcases List.mem_append.mp h'' with hspan | h4
    · intro h2
      exact hns row hrow cell hcell t hspan (Or.inl h2)
    · simp only [List.mem_singleton] at h4
      subst h4
      decide
  · simp only [List.mem_singleton] at h6
    subst h6
    decide

/-- C8 amended: for well-formed structural-token streams — a
concatenation of complete rows `⟨tr⟩ (cells) ⟨/tr⟩`, each cell
`⟨td⟩ (span markers, none of which is a control token 2–6) ⟨/td⟩` — every
decoded cell satisfies `row < num_rows` and `col + col_span ≤ num_cols`,
and its spans are clamped to `[1, 10]`.  The claimed bound
`row + row_span ≤ num_rows` does not hold in general: a rowspan marker may
exceed the rows actually decoded (see the counterexample). -/
theorem decode_tokens_wf_invariant (rows : List (List (List ℤ)))
    (bbox_data : Option (List Rect4)) (scale_x scale_y : ℚ)
    (hns : ∀ row ∈ rows, ∀ cell ∈ row, ∀ t ∈ cell, ¬ structuralToken t) :
    ∀ c ∈ (decode_tokens (tableTokens rows) bbox_data scale_x scale_y).1,
      c.row + 1 ≤ (decode_tokens (tableTokens rows) bbox_data scale_x scale_y).2.1
      ∧ c.col + c.col_span
          ≤ (decode_tokens (tableTokens rows) bbox_data scale_x scale_y).2.2
      ∧ 1 ≤ c.row_span ∧ c.row_span ≤ 10 ∧ 1 ≤ c.col_span ∧ c.col_span ≤ 10 := by
  have htake : (tableTokens rows).takeWhile (fun t => t ≠ 2) = tableTokens rows := by
    apply takeWhile_eq_self_of_all
    intro a ha
    simp only [decide_eq_true_eq]
    exact tableTokens_ne_two rows hns a ha
  have hinv := tableTokens_foldl_inv bbox_data scale_x scale_y rows
    ⟨[], 0, 0, 0, 0, false, 1, 1⟩ hns
    (fun c hc => absurd hc (List.not_mem_nil c))
  intro c hc
  simp only [decode_tokens, htake] at hc ⊢
  obtain ⟨i1, i2, i3⟩ := hinv c hc
  exact ⟨le_trans i1 (Nat.le_max_left _ _), le_trans i2 (Nat.le_max_left _ _), i3⟩

/-- C8 amended, witness: the well-formed stream for the two-row table
`⟨tr⟩⟨td rowspan-marker 22⟩⟨/td⟩⟨td⟩⟨/td⟩⟨/tr⟩ ⟨tr⟩⟨td⟩⟨/td⟩⟨/tr⟩`
decodes so that every cell fits the column and row counts. -/
theorem decode_tokens_wf_invariant_witness :
    (∀ row ∈ [[[22], []], [[]]], ∀ cell ∈ row, ∀ t ∈ cell,
        ¬ structuralToken (t : ℤ))
    ∧ ∀ c ∈ (decode_tokens (tableTokens [[[22], []], [[]]]) none 1 1).1,
        c.row + 1 ≤ (decode_tokens (tableTokens [[[22], []], [[]]]) none 1 1).2.1
        ∧ c.col + c.col_span
            ≤ (decode_tokens (tableTokens [[[22], []], [[]]]) none 1 1).2.2
        ∧ 1 ≤ c.row_span ∧ c.row_span ≤ 10 ∧ 1 ≤ c.col_span ∧ c.col_span ≤ 10 :=
  ⟨by decide, decode_tokens_wf_invariant [[[22], []], [[]]] none 1 1 (by decide)⟩

/-! ## Text detection post-processing (`ocr/detector.rs`)

The `[1, 1, H, W]` probability map is modelled as a function from pixel
coordinates `(x, y)` (column, row) to the probability; the `visited`
array is modelled as the finite set of visited coordinates. -/

/-- `usize::MAX`, the initial value of the min accumulators in
`get_box_from_contour`. -/
def usizeMax : ℕ :=
  2 ^ 64 - 1

/-- `TextDetector::flood_fill`: explicit-stack 4-connected fill.  The
stack's top is the list head; a popped pixel that is out of bounds,
visited or background is skipped, otherwise it is marked visited,
appended to the contour, and its four neighbours are pushed in the
source's order (left, right, up, down — so down is on top). -/
def flood_fill (binary : ℕ → ℕ → Bool) (width height : ℕ) :
    List (ℕ × ℕ) → Finset (ℕ × ℕ) → List (ℕ × ℕ) → List (ℕ × ℕ) × Finset (ℕ × ℕ)
  | [], visited, contour => (contour, visited)
  | (x, y) :: stack, visited, contour =>
      if h : width ≤ x ∨ height ≤ y ∨ (x, y) ∈ visited ∨ binary x y = false then
        flood_fill binary width height stack visited contour
      else
        flood_fill binary width height
          (((if 0 < x then [(x - 1, y)] else [])
            ++ (if x + 1 < width then [(x + 1, y)] else [])
            ++ (if 0 < y then [(x, y - 1)] else [])
            ++ (if y + 1 < height then [(x, y + 1)] else [])).reverse ++ stack)
          (insert (x, y) visited) (contour ++ [(x, y)])
termination_by stack visited _ =>
  5 * ((Finset.range width ×ˢ Finset.range height) \ visited).card + stack.length
decreasing_by
  · simp only [List.length_cons]
    omega
  · push_neg at h
    obtain ⟨hx, hy, hv, _⟩ := h
    have hmem : (x, y) ∈ (Finset.range width ×ˢ Finset.range height) \ visited := by
      rw [Finset.mem_sdiff, Finset.mem_product, Finset.mem_range, Finset.mem_range]
      exact ⟨⟨hx, hy⟩, hv⟩
    have hcard : ((Finset.range width ×ˢ Finset.range height)
          \ insert (x, y) visited).card
        < ((Finset.range width ×ˢ Finset.range height) \ visited).card := by
      rw [Finset.sdiff_insert]
      exact Finset.card_erase_lt_of_mem hmem
    simp only [List.length_cons, List.length_append, List.length_reverse]
    split_ifs <;> simp <;> omega

/-- Row-major pixel traversal order of the scan loop in `find_contours`. -/
def cellsRowMajor (width height : ℕ) : List (ℕ × ℕ) :=
  (List.range height).flatMap (fun y => (List.range width).map (fun x => (x, y)))

/-- `TextDetector::find_contours`: scan pixels row-major, flood-fill from
each unvisited foreground pixel, and keep components of at least 10
pixels. -/
def find_contours (binary : ℕ → ℕ → Bool) (width height : ℕ) :
    List (List (ℕ × ℕ)) :=
  ((cellsRowMajor width height).foldl
    (fun (st : Finset (ℕ × ℕ) × List (List (ℕ × ℕ))) cell =>
      if binary cell.1 cell.2 = true ∧ cell ∉ st.1 then
        let fill := flood_fill binary width height [cell] st.1 []
        (fill.2, if 10 ≤ fill.1.length then st.2 ++ [fill.1] else st.2)
      else st)
    (∅, [])).2

/-- `min_x` accumulator of the `get_box_from_contour` loop. -/
def contourMinX (contour : List (ℕ × ℕ)) : ℕ :=
  contour.foldl (fun m p => min m p.1) usizeMax

/-- `max_x` accumulator of the `get_box_from_contour` loop. -/
def contourMaxX (contour : List (ℕ × ℕ)) : ℕ :=
  contour.foldl (fun m p => max m p.1) 0

/-- `min_y` accumulator of the `get_box_from_contour` loop. -/
def contourMinY (contour : List (ℕ × ℕ)) : ℕ :=
  contour.foldl (fun m p => min m p.2) usizeMax

/-- `max_y` accumulator of the `get_box_from_contour` loop. -/
def contourMaxY (contour : List (ℕ × ℕ)) : ℕ :=
  contour.foldl (fun m p => max m p.2) 0

/-- `score_sum` accumulator of the `get_box_from_contour` loop. -/
def contourScoreSum (contour : List (ℕ × ℕ)) (prob : ℕ → ℕ → ℚ) : ℚ :=
  contour.foldl (fun s p => s + prob p.1 p.2) 0

/-- The component's width `max_x − min_x` as a float (usize subtraction
first, truncated at zero). -/
def contourWidth (contour : List (ℕ × ℕ)) : ℚ :=
  ((contourMaxX contour - contourMinX contour : ℕ) : ℚ)

/-- The component's height `max_y − min_y` as a float. -/
def contourHeight (contour : List (ℕ × ℕ)) : ℚ :=
  ((contourMaxY contour - contourMinY contour : ℕ) : ℚ)

/-- `TextDetector::get_box_from_contour`: the single loop computing the
min/max/sum accumulators is modelled by one fold per accumulator; the box
is expanded by `(unclip_ratio − 1)/2` of its width/height on each side,
with the top-left corner clamped at zero, and returned as the corner
sequence TL, TR, BR, BL together with the mean in-component
probability. -/
def get_box_from_contour (unclipFactor : ℚ) (contour : List (ℕ × ℕ))
    (prob : ℕ → ℕ → ℚ) : Quad × ℚ :=
  let avg_score := contourScoreSum contour prob / (contour.length : ℚ)
  let expand_x := contourWidth contour * (unclipFactor - 1) / 2
  let expand_y := contourHeight contour * (unclipFactor - 1) / 2
  let x1 := max ((contourMinX contour : ℚ) - expand_x) 0
  let y1 := max ((contourMinY contour : ℚ) - expand_y) 0
  let x2 := (contourMaxX contour : ℚ) + expand_x
  let y2 := (contourMaxY contour : ℚ) + expand_y
  (⟨x1, y1, x2, y1, x2, y2, x1, y2⟩, avg_score)

/-- The `scaled_bbox` step of `post_process`: divide each x by `scale_x`
and each y by `scale_y`. -/
def scaleQuad (q : Quad) (scale_x scale_y : ℚ) : Quad :=
  ⟨q.x1 / scale_x, q.y1 / scale_y, q.x2 / scale_x, q.y2 / scale_y,
   q.x3 / scale_x, q.y3 / scale_y, q.x4 / scale_x, q.y4 / scale_y⟩

/-- `TextDetector::clip_bbox`: clamp all 8 coordinates into
`[0, width] × [0, height]`. -/
def clip_bbox (bbox : Quad) (width height : ℕ) : Quad :=
  ⟨clampQ bbox.x1 0 (width : ℚ), clampQ bbox.y1 0 (height : ℚ),
   clampQ bbox.x2 0 (width : ℚ), clampQ bbox.y2 0 (height : ℚ),
   clampQ bbox.x3 0 (width : ℚ), clampQ bbox.y3 0 (height : ℚ),
   clampQ bbox.x4 0 (width : ℚ), clampQ bbox.y4 0 (height : ℚ)⟩

/-- `TextDetector::post_process`: binarize the probability map at
`threshold`, extract connected components, drop tiny contours and boxes
scoring below `box_threshold`, rescale to original coordinates by the
inverse preprocessing scale, and clip to the original image bounds. -/
def post_process (threshold box_threshold unclipFactor : ℚ)
    (height width : ℕ) (prob : ℕ → ℕ → ℚ)
    (scale_x scale_y : ℚ) (orig_width orig_height : ℕ) :
    List Quad × List ℚ :=
  let binary : ℕ → ℕ → Bool := fun x y => decide (threshold < prob x y)
  (find_contours binary width height).foldl
    (fun (acc : List Quad × List ℚ) contour =>
      if contour.length < 4 then acc
      else
        let bs := get_box_from_contour unclipFactor contour prob
        if bs.2 < box_threshold then acc
        else
          (acc.1 ++ [clip_bbox (scaleQuad bs.1 scale_x scale_y)
              orig_width orig_height],
           acc.2 ++ [bs.2]))
    ([], [])

/-- All 8 coordinates of a quadrilateral lie in `[0, w] × [0, h]`
(decidable form). -/
def quadInBounds (q : Quad) (width height : ℕ) : Bool :=
  decide (0 ≤ q.x1 ∧ q.x1 ≤ (width : ℚ) ∧ 0 ≤ q.y1 ∧ q.y1 ≤ (height : ℚ)
    ∧ 0 ≤ q.x2 ∧ q.x2 ≤ (width : ℚ) ∧ 0 ≤ q.y2 ∧ q.y2 ≤ (height : ℚ)
    ∧ 0 ≤ q.x3 ∧ q.x3 ≤ (width : ℚ) ∧ 0 ≤ q.y3 ∧ q.y3 ≤ (height : ℚ)
    ∧ 0 ≤ q.x4 ∧ q.x4 ≤ (width : ℚ) ∧ 0 ≤ q.y4 ∧ q.y4 ≤ (height : ℚ))

lemma clampQ_nonneg_le {x hi : ℚ} (hhi : 0 ≤ hi) :
    0 ≤ clampQ x 0 hi ∧ clampQ x 0 hi ≤ hi := by
  unfold clampQ
  constructor
  · exact le_min (le_max_right x 0) hhi
  · exact min_le_right _ _

lemma clip_bbox_in_bounds (q : Quad) (w h : ℕ) :
    quadInBounds (clip_bbox q w h) w h = true := by
  have hw : (0 : ℚ) ≤ (w : ℚ) := Nat.cast_nonneg w
  have hh : (0 : ℚ) ≤ (h : ℚ) := Nat.cast_nonneg h
  simp only [quadInBounds, clip_bbox, decide_eq_true_eq]
  refine ⟨(clampQ_nonneg_le hw).1, (clampQ_nonneg_le hw).2,
    (clampQ_nonneg_le hh).1, (clampQ_nonneg_le hh).2,
    (clampQ_nonneg_le hw).1, (clampQ_nonneg_le hw).2,
    (clampQ_nonneg_le hh).1, (clampQ_nonneg_le hh).2,
    (clampQ_nonneg_le hw).1, (clampQ_nonneg_le hw).2,
    (clampQ_nonneg_le hh).1, (clampQ_nonneg_le hh).2,
    (clampQ_nonneg_le hw).1, (clampQ_nonneg_le hw).2,
    (clampQ_nonneg_le hh).1, (clampQ_nonneg_le hh).2⟩

lemma post_process_fold_all (box_threshold unclipFactor : ℚ)
    (prob : ℕ → ℕ → ℚ) (scale_x scale_y : ℚ) (ow oh : ℕ) :
    ∀ (cs : List (List (ℕ × ℕ))) (acc : List Quad × List ℚ),
      acc.1.all (fun q => quadInBounds q ow oh) = true →
      ((cs.foldl
        (fun (acc : List Quad × List ℚ) contour =>
          if contour.length < 4 then acc
          else
            let bs := get_box_from_contour unclipFactor contour prob
            if bs.2 < box_threshold then acc
            else
              (acc.1 ++ [clip_bbox (scaleQuad bs.1 scale_x scale_y) ow oh],
               acc.2 ++ [bs.2]))
        acc).1.all (fun q => quadInBounds q ow oh)) = true
  | [], _, hacc => hacc
  | c :: cs, acc, hacc => by
      rw [List.foldl_cons]
      apply post_process_fold_all box_threshold unclipFactor prob scale_x scale_y ow oh cs
      by_cases h4 : c.length < 4
      · simpa [if_pos h4] using hacc
      · rw [if_neg h4]
        by_cases hbt : (get_box_from_contour unclipFactor c prob).2 < box_threshold
        · simpa [if_pos hbt] using hacc
        · rw [if_neg hbt]
          simp only [List.all_append, List.all_cons, List.all_nil]
          rw [hacc, clip_bbox_in_bounds]
          rfl

/-- C6: every box returned by the detector's post-processing — after
unclip expansion, rescaling to original coordinates and clipping — has
all 8 quadrilateral coordinates within `[0, width] × [0, height]` of the
source image. -/
theorem post_process_boxes_in_bounds (threshold box_threshold unclipFactor : ℚ)
    (height width : ℕ) (prob : ℕ → ℕ → ℚ) (scale_x scale_y : ℚ)
    (orig_width orig_height : ℕ) :
    ((post_process threshold box_threshold unclipFactor height width prob
        scale_x scale_y orig_width orig_height).1.all
      (fun q => quadInBounds q orig_width orig_height)) = true :=
  post_process_fold_all box_threshold unclipFactor prob scale_x scale_y
    orig_width orig_height
    (find_contours (fun x y => decide (threshold < prob x y)) width height)
    ([], []) rfl

/-- Claim-side box expansion, following the spec's wording: the
component's axis-aligned box grown outward symmetrically on each side by
`(unclip_ratio − 1)/2` of its width/height, with no clamping before the
final clip. -/
def specSymmetricExpand (unclipFactor : ℚ) (contour : List (ℕ × ℕ)) : Quad :=
  let ex := contourWidth contour * (unclipFactor - 1) / 2
  let ey := contourHeight contour * (unclipFactor - 1) / 2
  let x1 := (contourMinX contour : ℚ) - ex
  let y1 := (contourMinY contour : ℚ) - ey
  let x2 := (contourMaxX contour : ℚ) + ex
  let y2 := (contourMaxY contour : ℚ) + ey
  ⟨x1, y1, x2, y1, x2, y2, x1, y2⟩

lemma clampQ_max_zero_div {a s w : ℚ} (hs : 0 < s) :
    clampQ (max a 0 / s) 0 w = clampQ (a / s) 0 w := by
  rw [← max_div_div_right hs.le a 0, zero_div]
  unfold clampQ
  rw [max_assoc, max_self]

/-- C7: for every contour, the box the detector produces — expansion with
the low corner clamped at zero, then rescaling, then clipping — equals
the clip of the rescaled *symmetric* expansion of the component's
axis-aligned box by `(unclip_ratio − 1)/2` of its width/height per side;
and with `unclip_ratio = 3/2` that expansion is exactly a quarter of the
width/height outward on each side. -/
theorem unclip_expansion_symmetric (unclipFactor : ℚ) (contour : List (ℕ × ℕ))
    (prob : ℕ → ℕ → ℚ) (scale_x scale_y : ℚ) (ow oh : ℕ)
    (hsx : 0 < scale_x) (hsy : 0 < scale_y) :
    clip_bbox (scaleQuad (get_box_from_contour unclipFactor contour prob).1
        scale_x scale_y) ow oh
      = clip_bbox (scaleQuad (specSymmetricExpand unclipFactor contour)
          scale_x scale_y) ow oh
    ∧ specSymmetricExpand (3/2) contour
        = ⟨(contourMinX contour : ℚ) - contourWidth contour / 4,
            (contourMinY contour : ℚ) - contourHeight contour / 4,
            (contourMaxX contour : ℚ) + contourWidth contour / 4,
            (contourMinY contour : ℚ) - contourHeight contour / 4,
            (contourMaxX contour : ℚ) + contourWidth contour / 4,
            (contourMaxY contour : ℚ) + contourHeight contour / 4,
            (contourMinX contour : ℚ) - contourWidth contour / 4,
            (contourMaxY contour : ℚ) + contourHeight contour / 4⟩ := by
  constructor
  · simp only [get_box_from_contour, specSymmetricExpand, scaleQuad, clip_bbox,
      Quad.mk.injEq]
    and_intros <;>
      first
        | rfl
        | trivial
        | exact clampQ_max_zero_div hsx
        | exact clampQ_max_zero_div hsy
  · simp only [specSymmetricExpand, Quad.mk.injEq]
    refine ⟨?_, ?_, ?_, ?_, ?_, ?_, ?_, ?_⟩ <;> ring

/-- C7 witness: the contour spanning `(10,10)–(40,20)` with scales `1`
and `unclip_ratio = 3/2` expands a quarter outward per side: from
`[10,40] × [10,20]` to `[2.5,47.5] × [7.5,22.5]`, inside a 100×50
image. -/
theorem unclip_expansion_symmetric_witness :
    (0 : ℚ) < 1
    ∧ clip_bbox (scaleQuad (get_box_from_contour (3/2) [(10, 10), (40, 20)]
          (fun _ _ => 0)).1 1 1) 100 50
        = clip_bbox (scaleQuad (specSymmetricExpand (3/2) [(10, 10), (40, 20)])
            1 1) 100 50
    ∧ clip_bbox (scaleQuad (get_box_from_contour (3/2) [(10, 10), (40, 20)]
          (fun _ _ => 0)).1 1 1) 100 50
        = ⟨5/2, 15/2, 95/2, 15/2, 95/2, 45/2, 5/2, 45/2⟩ :=
  ⟨by norm_num,
    (unclip_expansion_symmetric (3/2) [(10, 10), (40, 20)] (fun _ _ => 0)
      1 1 100 50 (by norm_num) (by norm_num)).1,
    by with_unfolding_all decide⟩

/-! ## Engine orchestration (`ocr/engine.rs`, `ocr/classifier.rs`)

Each model-backed component wraps an external inference backend and is
embedded as the function from its input image to its observable result.
The image type is abstract; the pixel operations the engine uses — the
preprocessor's axis-aligned crop (which never fails in the source) and
the `image` crate's 180° rotation — are fields of the model. -/

/-- The OCR error taxonomy (`OcrError` in `error.rs`). -/
inductive OcrError where
  | modelLoad (msg : String)
  | detection (msg : String)
  | recognition (msg : String)
  | preprocessing (msg : String)
  | invalidImage (msg : String)
  deriving Repr, DecidableEq

/-- Detection result (`DetectionResult` in `detector.rs`). -/
structure DetectionResult where
  boxes : List Quad
  scores : List ℚ
  image_size : ℕ × ℕ
  deriving Repr, DecidableEq

/-- OCR engine configuration (`OcrConfig` in `models/config.rs`). -/
structure OcrConfig where
  enable_detection : Bool
  enable_classification : Bool
  enable_recognition : Bool
  detection_threshold : ℚ
  recognition_threshold : ℚ
  max_image_size : ℕ
  recognition_batch_size : ℕ
  use_gpu : Bool
  num_threads : ℕ
  deriving Repr, DecidableEq

/-- `OcrConfig::default`: detection, classification and recognition
enabled, detection threshold 0.3, recognition threshold 0 (disabled). -/
def OcrConfig.defaults : OcrConfig :=
  ⟨true, true, true, 3/10, 0, 2048, 8, false, 4⟩

/-- The angle classifier (`AngleClassifier` in `classifier.rs`): its
observable classify behavior plus its rotation threshold (0.9 by
default). -/
structure AngleClassifier (Img : Type) where
  classify : Img → Except OcrError (ℤ × ℚ)
  threshold : ℚ

/-- `AngleClassifier::needs_rotation`: true iff the classified angle is
180 and the confidence strictly exceeds the threshold. -/
def needs_rotation {Img : Type} (c : AngleClassifier Img) (image : Img) :
    Except OcrError Bool := do
  let (angle, confidence) ← c.classify image
  pure (decide (angle = 180 ∧ confidence > c.threshold))

/-- `AngleClassifier::auto_rotate`: rotate 180° only when
`needs_rotation` holds. -/
def auto_rotate {Img : Type} (rotate180 : Img → Img) (c : AngleClassifier Img)
    (image : Img) : Except OcrError Img := do
  if (← needs_rotation c image) then pure (rotate180 image) else pure image

/-- The OCR engine (`OcrEngine` in `engine.rs`): optional components, the
abstract image operations, and the configuration. -/
structure OcrEngine (Img : Type) where
  detector : Option (Img → Except OcrError DetectionResult)
  classifier : Option (AngleClassifier Img)
  recognizer : Option (Img → Except OcrError RecognitionResult)
  layout_detector : Option (Img → Except OcrError LayoutResult)
  dims : Img → ℕ × ℕ
  crop_text_region : Img → Quad → Img
  rotate180 : Img → Img
  config : OcrConfig

/-- The whole-image quadrilateral used as the single fallback region when
detection is disabled by configuration. -/
def whole_image_box (width height : ℕ) : Quad :=
  ⟨0, 0, (width : ℚ), 0, (width : ℚ), (height : ℚ), 0, (height : ℚ)⟩

/-- Step 1 of `OcrEngine::process`: detect when a detector is configured
and detection is enabled; with a detector but detection disabled, treat
the whole image as one region with score 1.0; with no detector, fail. -/
def detection_step {Img : Type} (e : OcrEngine Img) (image : Img) :
    Except OcrError DetectionResult :=
  match e.detector with
  | some detector =>
      if e.config.enable_detection then detector image
      else
        .ok { boxes := [whole_image_box (e.dims image).1 (e.dims image).2],
              scores := [1], image_size := e.dims image }
  | none => .error (.detection "No detector configured")

/-- Step 2a of `OcrEngine::process`: when classification is enabled,
classify the cropped region's angle and rotate 180° exactly when the
classifier reports angle 180 — the confidence is bound to `_conf` and
discarded. -/
def classification_step {Img : Type} (e : OcrEngine Img) (cropped : Img) :
    Except OcrError (Img × ℤ) :=
  match e.classifier with
  | some classifier =>
      if e.config.enable_classification then do
        let (angle, _conf) ← classifier.classify cropped
        pure ((if angle = 180 then e.rotate180 cropped else cropped), angle)
      else pure (cropped, 0)
  | none => pure (cropped, 0)

/-- Step 2b of `OcrEngine::process`: recognize when enabled, otherwise
empty text with score 0. -/
def recognition_step {Img : Type} (e : OcrEngine Img) (rotated : Img) :
    Except OcrError (List Char × ℚ) :=
  match e.recognizer with
  | some recognizer =>
      if e.config.enable_recognition then do
        let result ← recognizer rotated
        pure (result.text, result.confidence)
      else pure ([], 0)
  | none => pure ([], 0)

/-- The body of the per-region loop of `OcrEngine::process`: crop,
classify, recognize, then keep the box only if the recognition score
clears `recognition_threshold` or recognition is disabled. -/
def process_region {Img : Type} (e : OcrEngine Img) (image : Img)
    (bbox : Quad) (det_score : ℚ) : Except OcrError (Option TextBox) := do
  let cropped := e.crop_text_region image bbox
  let (rotated, angle) ← classification_step e cropped
  let (text, rec_score) ← recognition_step e rotated
  if rec_score ≥ e.config.recognition_threshold
      ∨ e.config.enable_recognition = false then
    pure (some { bbox := bbox, text := text, detection_score := det_score,
                 recognition_score := rec_score, angle := angle })
  else
    pure none

/-- The sequential region loop of `OcrEngine::process`; a region's
failure aborts the whole call. -/
def process_regions {Img : Type} (e : OcrEngine Img) (image : Img) :
    List (Quad × ℚ) → Except OcrError (List TextBox)
  | [] => .ok []
  | (bbox, det_score) :: rest => do
      let tb ← process_region e image bbox det_score
      let tbs ← process_regions e image rest
      match tb with
      | some t => pure (t :: tbs)
      | none => pure tbs

/-- The lowercase debug name of a layout type, as the engine's
`format!` + `to_lowercase` produces. -/
def LayoutType.lowercaseName : LayoutType → List Char
  | .text => "text".toList
  | .title => "title".toList
  | .list => "list".toList
  | .table => "table".toList
  | .figure => "figure".toList
  | .unknown => "unknown".toList

/-- Step 3 of `OcrEngine::process`: run layout detection when configured;
a layout failure degrades to "no layout info", never failing the call. -/
def layout_step {Img : Type} (e : OcrEngine Img) (image : Img) : Option LayoutInfo :=
  match e.layout_detector with
  | some layout_detector =>
      match layout_detector image with
      | .ok layout_result =>
          some
            { tables := (LayoutResult.tables layout_result).map (fun r =>
                ⟨"table".toList, r.bbox, r.confidence⟩),
              text_regions := (LayoutResult.text_regions layout_result).map (fun r =>
                ⟨r.region_type.lowercaseName, r.bbox, r.confidence⟩),
              figures := (layout_result.regions.filter (fun r =>
                  decide (r.region_type = LayoutType.figure))).map (fun r =>
                ⟨"figure".toList, r.bbox, r.confidence⟩) }
      | .error _ => none
  | none => none

/-- `OcrEngine::process`: detect (or fall back, or fail), process each
region sequentially, attach layout info, and sort into reading order.
The wall-clock `processing_time_ms` is modelled as 0. -/
def process {Img : Type} (e : OcrEngine Img) (image : Img) :
    Except OcrError OcrResult := do
  let (width, height) := e.dims image
  let detection_result ← detection_step e image
  if detection_result.boxes.isEmpty then
    return OcrResult.empty width height
  let text_boxes ← process_regions e image
    (detection_result.boxes.zip detection_result.scores)
  let layout := layout_step e image
  let result : OcrResult :=
    { boxes := text_boxes, text := [], processing_time_ms := 0,
      image_size := (width, height), layout := layout }
  return sort_by_reading_order result

lemma except_isOk_iff {ε α : Type} {x : Except ε α} :
    x.isOk = true ↔ ∃ v, x = .ok v := by
  cases x <;> simp [Except.isOk, Except.toBool]

lemma classification_step_some {Img : Type} {e : OcrEngine Img}
    {c : AngleClassifier Img} (hc : e.classifier = some c) (cropped : Img) :
    classification_step e cropped
      = if e.config.enable_classification = true then
          (do
            let (angle, _conf) ← c.classify cropped
            pure ((if angle = 180 then e.rotate180 cropped else cropped), angle))
        else pure (cropped, 0) := by
  rw [classification_step, hc]

lemma classification_step_none {Img : Type} {e : OcrEngine Img}
    (hc : e.classifier = none) (cropped : Img) :
    classification_step e cropped = pure (cropped, 0) := by
  rw [classification_step, hc]

lemma recognition_step_some {Img : Type} {e : OcrEngine Img}
    {f : Img → Except OcrError RecognitionResult}
    (hr : e.recognizer = some f) (rotated : Img) :
    recognition_step e rotated
      = if e.config.enable_recognition = true then
          (do
            let result ← f rotated
            pure (result.text, result.confidence))
        else pure ([], 0) := by
  rw [recognition_step, hr]

lemma recognition_step_none {Img : Type} {e : OcrEngine Img}
    (hr : e.recognizer = none) (rotated : Img) :
    recognition_step e rotated = pure ([], 0) := by
  rw [recognition_step, hr]

lemma detection_step_some {Img : Type} {e : OcrEngine Img}
    {f : Img → Except OcrError DetectionResult}
    (hf : e.detector = some f) (image : Img) :
    detection_step e image
      = if e.config.enable_detection = true then f image
        else
          .ok { boxes := [whole_image_box (e.dims image).1 (e.dims image).2],
                scores := [1], image_size := e.dims image } := by
  rw [detection_step, hf]

lemma detection_step_none {Img : Type} {e : OcrEngine Img}
    (hf : e.detector = none) (image : Img) :
    detection_step e image = .error (.detection "No detector configured") := by
  rw [detection_step, hf]

lemma classification_step_isOk {Img : Type} (e : OcrEngine Img) (cropped : Img)
    (hcls : ∀ c, e.classifier = some c → ∀ i, (c.classify i).isOk = true) :
    (classification_step e cropped).isOk = true := by
  cases hc : e.classifier with
  | none => rw [classification_step_none hc]; rfl
  | some c =>
      rw [classification_step_some hc]
      by_cases hen : e.config.enable_classification = true
      · rw [if_pos hen]
        obtain ⟨⟨angle, conf⟩, hv⟩ := except_isOk_iff.mp (hcls c hc cropped)
        rw [hv]
        rfl
      · rw [if_neg hen]
        rfl

lemma recognition_step_isOk {Img : Type} (e : OcrEngine Img) (rotated : Img)
    (hrec : ∀ f, e.recognizer = some f → ∀ i, (f i).isOk = true) :
    (recognition_step e rotated).isOk = true := by
  cases hr : e.recognizer with
  | none => rw [recognition_step_none hr]; rfl
  | some f =>
      rw [recognition_step_some hr]
      by_cases hen : e.config.enable_recognition = true
      · rw [if_pos hen]
        obtain ⟨v, hv⟩ := except_isOk_iff.mp (hrec f hr rotated)
        rw [hv]
        rfl
      · rw [if_neg hen]
        rfl

lemma process_region_isOk {Img : Type} (e : OcrEngine Img) (image : Img)
    (bbox : Quad) (det_score : ℚ)
    (hcls : ∀ c, e.classifier = some c → ∀ i, (c.classify i).isOk = true)
    (hrec : ∀ f, e.recognizer = some f → ∀ i, (f i).isOk = true) :
    (process_region e image bbox det_score).isOk = true := by
  obtain ⟨⟨rotated, angle⟩, h1⟩ := except_isOk_iff.mp
    (classification_step_isOk e (e.crop_text_region image bbox) hcls)
  obtain ⟨⟨text, rec_score⟩, h2⟩ := except_isOk_iff.mp
    (recognition_step_isOk e rotated hrec)
  have hstep : process_region e image bbox det_score
      = if rec_score ≥ e.config.recognition_threshold
            ∨ e.config.enable_recognition = false then
          .ok (some { bbox := bbox, text := text, detection_score := det_score,
                      recognition_score := rec_score, angle := angle })
        else .ok none :=
    calc process_region e image bbox det_score
        = (do
            let (text', rec_score') ← recognition_step e rotated
            if rec_score' ≥ e.config.recognition_threshold
                ∨ e.config.enable_recognition = false then
              pure (some { bbox := bbox, text := text', detection_score := det_score,
                           recognition_score := rec_score', angle := angle })
            else pure none) := by
          rw [process_region, h1]
          rfl
      _ = _ := by
          rw [h2]
          rfl
  rw [hstep]
  by_cases hc : rec_score ≥ e.config.recognition_threshold
      ∨ e.config.enable_recognition = false
  · rw [if_pos hc]
    rfl
  · rw [if_neg hc]
    rfl

lemma process_regions_isOk {Img : Type} (e : OcrEngine Img) (image : Img)
    (hcls : ∀ c, e.classifier = some c → ∀ i, (c.classify i).isOk = true)
    (hrec : ∀ f, e.recognizer = some f → ∀ i, (f i).isOk = true) :
    ∀ pairs : List (Quad × ℚ), (process_regions e image pairs).isOk = true
  | [] => rfl
  | (bbox, ds) :: rest => by
      obtain ⟨tb, h1⟩ := except_isOk_iff.mp
        (process_region_isOk e image bbox ds hcls hrec)
      obtain ⟨tbs, h2⟩ := except_isOk_iff.mp
        (process_regions_isOk e image hcls hrec rest)
      have e1 : process_regions e image ((bbox, ds) :: rest)
          = (do
              let tb' ← process_region e image bbox ds
              let tbs' ← process_regions e image rest
              match tb' with
              | some t => pure (t :: tbs')
              | none => pure tbs') := rfl
      rw [e1, h1, h2]
      cases tb <;> rfl

lemma detection_step_isOk_of_some {Img : Type} (e : OcrEngine Img) (image : Img)
    (f : Img → Except OcrError DetectionResult) (hf : e.detector = some f)
    (hdet : ∀ g, e.detector = some g → ∀ i, (g i).isOk = true) :
    (detection_step e image).isOk = true := by
  rw [detection_step_some hf]
  by_cases hen : e.config.enable_detection = true
  · rw [if_pos hen]
    exact hdet f hf image
  · rw [if_neg hen]
    rfl

lemma process_unfold {Img : Type} (e : OcrEngine Img) (image : Img) :
    process e image
      = (do
          let detection_result ← detection_step e image
          if detection_result.boxes.isEmpty then
            return OcrResult.empty (e.dims image).1 (e.dims image).2
          let text_boxes ← process_regions e image
            (detection_result.boxes.zip detection_result.scores)
          return sort_by_reading_order
            { boxes := text_boxes, text := [], processing_time_ms := 0,
              image_size := ((e.dims image).1, (e.dims image).2),
              layout := layout_step e image }) := rfl

lemma process_eq_branch {Img : Type} (e : OcrEngine Img) (image : Img)
    {d : DetectionResult} (hd : detection_step e image = .ok d) :
    process e image
      = if d.boxes.isEmpty = true then
          pure (OcrResult.empty (e.dims image).1 (e.dims image).2)
        else
          (do
            let text_boxes ← process_regions e image (d.boxes.zip d.scores)
            pure (sort_by_reading_order
              { boxes := text_boxes, text := [], processing_time_ms := 0,
                image_size := ((e.dims image).1, (e.dims image).2),
                layout := layout_step e image })) := by
  rw [process_unfold, hd]
  rfl

lemma process_isOk_of_detector {Img : Type} (e : OcrEngine Img) (image : Img)
    (f : Img → Except OcrError DetectionResult) (hf : e.detector = some f)
    (hdet : ∀ g, e.detector = some g → ∀ i, (g i).isOk = true)
    (hcls : ∀ c, e.classifier = some c → ∀ i, (c.classify i).isOk = true)
    (hrec : ∀ g, e.recognizer = some g → ∀ i, (g i).isOk = true) :
    (process e image).isOk = true := by
  obtain ⟨d, hd⟩ := except_isOk_iff.mp (detection_step_isOk_of_some e image f hf hdet)
  rw [process_eq_branch e image hd]
  by_cases hempty : d.boxes.isEmpty = true
  · rw [if_pos hempty]
    rfl
  · rw [if_neg hempty]
    obtain ⟨tbs, htbs⟩ := except_isOk_iff.mp
      (process_regions_isOk e image hcls hrec (d.boxes.zip d.scores))
    rw [htbs]
    rfl

lemma process_error_of_no_detector {Img : Type} (e : OcrEngine Img) (image : Img)
    (hn : e.detector = none) :
    process e image = .error (.detection "No detector configured") := by
  rw [process_unfold, detection_step_none hn]
  rfl

/-- C5: provided the configured components' inference calls succeed,
`process` returns an error iff no detector component is configured; and
when a detector is configured but detection is disabled, the whole image
becomes a single region with score 1.0 and processing succeeds. -/
theorem process_error_iff_no_detector {Img : Type} (e : OcrEngine Img) (image : Img)
    (hdet : ∀ f, e.detector = some f → ∀ i, (f i).isOk = true)
    (hcls : ∀ c, e.classifier = some c → ∀ i, (c.classify i).isOk = true)
    (hrec : ∀ f, e.recognizer = some f → ∀ i, (f i).isOk = true) :
    ((process e image).isOk = true ↔ e.detector.isSome = true)
    ∧ (∀ f, e.detector = some f → e.config.enable_detection = false →
        detection_step e image
          = .ok { boxes := [whole_image_box (e.dims image).1 (e.dims image).2],
                  scores := [1], image_size := e.dims image }
        ∧ (process e image).isOk = true) := by
  constructor
  · constructor
    · intro hok
      cases hdopt : e.detector with
      | none =>
          rw [process_error_of_no_detector e image hdopt] at hok
          exact absurd hok (by simp [Except.isOk, Except.toBool])
      | some f => rfl
    · intro hsome
      cases hdopt : e.detector with
      | none => rw [hdopt] at hsome; exact absurd hsome (by simp)
      | some f => exact process_isOk_of_detector e image f hdopt hdet hcls hrec
  · intro f hf hdis
    constructor
    · rw [detection_step_some hf, if_neg (by simp [hdis])]
    · exact process_isOk_of_detector e image f hf hdet hcls hrec

/-- A concrete engine over the unit image type: a detector returning one
whole-image region, no classifier, recognizer, or layout detector. -/
def unitEngine : OcrEngine Unit :=
  { detector := some (fun _ => .ok ⟨[whole_image_box 8 8], [1], (8, 8)⟩),
    classifier := none,
    recognizer := none,
    layout_detector := none,
    dims := fun _ => (8, 8),
    crop_text_region := fun i _ => i,
    rotate180 := fun i => i,
    config := OcrConfig.defaults }

/-- C5 witness: the concrete engine has a detector and its `process`
succeeds; the equivalence holds at this engine. -/
theorem process_error_iff_no_detector_witness :
    ((process unitEngine ()).isOk = true ↔ (unitEngine.detector).isSome = true)
    ∧ (process unitEngine ()).isOk = true :=
  have h := process_error_iff_no_detector unitEngine ()
    (fun f hf i => by
      simp only [unitEngine, Option.some.injEq] at hf
      rw [← hf]
      rfl)
    (fun c hc i => by simp [unitEngine] at hc)
    (fun f hf i => by simp [unitEngine] at hf)
  ⟨h.1, h.1.mpr rfl⟩

lemma process_region_rec_disabled {Img : Type} (e : OcrEngine Img) (image : Img)
    (bbox : Quad) (det_score : ℚ)
    (hrec_off : e.config.enable_recognition = false)
    (hcls : ∀ c, e.classifier = some c → ∀ i, (c.classify i).isOk = true) :
    ∃ angle, process_region e image bbox det_score
      = .ok (some { bbox := bbox, text := [], detection_score := det_score,
                    recognition_score := 0, angle := angle }) := by
  obtain ⟨⟨rotated, angle⟩, h1⟩ := except_isOk_iff.mp
    (classification_step_isOk e (e.crop_text_region image bbox) hcls)
  have h2 : recognition_step e rotated = pure ([], 0) := by
    cases hr : e.recognizer with
    | none => exact recognition_step_none hr rotated
    | some f => rw [recognition_step_some hr, if_neg (by simp [hrec_off])]
  refine ⟨angle, ?_⟩
  calc process_region e image bbox det_score
      = (do
          let (text', rec_score') ← recognition_step e rotated
          if rec_score' ≥ e.config.recognition_threshold
              ∨ e.config.enable_recognition = false then
            pure (some { bbox := bbox, text := text', detection_score := det_score,
                         recognition_score := rec_score', angle := angle })
          else pure none) := by
        rw [process_region, h1]
        rfl
    _ = if (0 : ℚ) ≥ e.config.recognition_threshold
            ∨ e.config.enable_recognition = false then
          .ok (some { bbox := bbox, text := [], detection_score := det_score,
                      recognition_score := 0, angle := angle })
        else .ok none := by
        rw [h2]
        rfl
    _ = .ok (some { bbox := bbox, text := [], detection_score := det_score,
                    recognition_score := 0, angle := angle }) := by
        rw [if_pos (Or.inr hrec_off)]

/-- C9: with recognition disabled, every detected region yields exactly
one `TextBox` with empty text and recognition score 0, the threshold
filter drops nothing (one box per region, in order, with the detector's
score), and `process` succeeds with its sorted boxes a permutation of
those per-region boxes. -/
theorem recognition_disabled_empty_text {Img : Type} (e : OcrEngine Img) (image : Img)
    (hrec_off : e.config.enable_recognition = false)
    (hcls : ∀ c, e.classifier = some c → ∀ i, (c.classify i).isOk = true) :
    (∀ pairs : List (Quad × ℚ),
      ∃ tbs, process_regions e image pairs = .ok tbs
        ∧ tbs.map (fun t => (t.bbox, t.detection_score)) = pairs
        ∧ ∀ t ∈ tbs, t.text = [] ∧ t.recognition_score = 0)
    ∧ (∀ (f : Img → Except OcrError DetectionResult) (d : DetectionResult),
        e.detector = some f → e.config.enable_detection = true →
        f image = .ok d →
        ∃ r tbs, process e image = .ok r
          ∧ process_regions e image (d.boxes.zip d.scores) = .ok tbs
          ∧ r.boxes.Perm tbs) := by
  have hmain : ∀ pairs : List (Quad × ℚ),
      ∃ tbs, process_regions e image pairs = .ok tbs
        ∧ tbs.map (fun t => (t.bbox, t.detection_score)) = pairs
        ∧ ∀ t ∈ tbs, t.text = [] ∧ t.recognition_score = 0 := by
    intro pairs
    induction pairs with
    | nil => exact ⟨[], rfl, rfl, by simp⟩
    | cons p rest ih =>
        obtain ⟨bbox, ds⟩ := p
        obtain ⟨angle, h1⟩ := process_region_rec_disabled e image bbox ds hrec_off hcls
        obtain ⟨tbs, h2, h3, h4⟩ := ih
        refine ⟨{ bbox := bbox, text := [], detection_score := ds,
                  recognition_score := 0, angle := angle } :: tbs, ?_, ?_, ?_⟩
        · have e1 : process_regions e image ((bbox, ds) :: rest)
              = (do
                  let tb' ← process_region e image bbox ds
                  let tbs' ← process_regions e image rest
                  match tb' with
                  | some t => pure (t :: tbs')
                  | none => pure tbs') := rfl
          rw [e1, h1, h2]
          rfl
        · simp [h3]
        · intro t ht
          rcases List.mem_cons.mp ht with h | h
          · subst h
            exact ⟨rfl, rfl⟩
          · exact h4 t h
  refine ⟨hmain, ?_⟩
  intro f d hf hen hfd
  have hd : detection_step e image = .ok d := by
    rw [detection_step_some hf, if_pos hen, hfd]
  obtain ⟨tbs, h2, h3, _⟩ := hmain (d.boxes.zip d.scores)
  by_cases hempty : d.boxes.isEmpty = true
  · have hzip : d.boxes.zip d.scores = ([] : List (Quad × ℚ)) := by
      rw [List.isEmpty_iff] at hempty
      simp [hempty]
    have htbs : tbs = [] := by
      rw [hzip] at h3
      exact List.map_eq_nil_iff.mp h3
    refine ⟨OcrResult.empty (e.dims image).1 (e.dims image).2, tbs, ?_, h2, ?_⟩
    · rw [process_eq_branch e image hd, if_pos hempty]
      rfl
    · rw [htbs]
      exact List.Perm.refl _
  · refine ⟨sort_by_reading_order
        { boxes := tbs, text := [], processing_time_ms := 0,
          image_size := ((e.dims image).1, (e.dims image).2),
          layout := layout_step e image }, tbs, ?_, h2, ?_⟩
    · rw [process_eq_branch e image hd, if_neg hempty, h2]
      rfl
    · exact List.perm_insertionSort readingOrderLe tbs

/-- The unit engine with recognition disabled. -/
def unitEngineRecOff : OcrEngine Unit :=
  { unitEngine with
      config := { OcrConfig.defaults with enable_recognition := false } }

/-- C9 witness: with recognition disabled, the concrete region list
yields one box per region with empty text, recognition score 0 and the
detector's score. -/
theorem recognition_disabled_empty_text_witness :
    ∃ tbs, process_regions unitEngineRecOff () [(whole_image_box 8 8, 1)] = .ok tbs
      ∧ tbs.map (fun t => (t.bbox, t.detection_score)) = [(whole_image_box 8 8, 1)]
      ∧ ∀ t ∈ tbs, t.text = [] ∧ t.recognition_score = 0 :=
  (recognition_disabled_empty_text unitEngineRecOff () rfl
    (fun c hc i => by simp [unitEngineRecOff, unitEngine] at hc)).1
    [(whole_image_box 8 8, 1)]

lemma classification_step_congr {Img : Type} (e : OcrEngine Img)
    (c c' : AngleClassifier Img) (hcl : e.classifier = some c)
    (hmap : ∀ i, (c.classify i).map Prod.fst = (c'.classify i).map Prod.fst)
    (cropped : Img) :
    classification_step { e with classifier := some c' } cropped
      = classification_step e cropped := by
  rw [classification_step_some
      (show ({ e with classifier := some c' } : OcrEngine Img).classifier
        = some c' from rfl) cropped,
    classification_step_some hcl cropped]
  by_cases hen : e.config.enable_classification = true
  · rw [if_pos hen, if_pos hen]
    have h := hmap cropped
    cases hc1 : c.classify cropped with
    | ok v =>
        cases hc2 : c'.classify cropped with
        | ok w =>
            rw [hc1, hc2] at h
            obtain ⟨a, q⟩ := v
            obtain ⟨a', q'⟩ := w
            simp only [Except.map, Except.ok.injEq] at h
            subst h
            rfl
        | error msg =>
            rw [hc1, hc2] at h
            simp [Except.map] at h
    | error msg =>
        cases hc2 : c'.classify cropped with
        | ok w =>
            rw [hc1, hc2] at h
            simp [Except.map] at h
        | error msg' =>
            rw [hc1, hc2] at h
            simp only [Except.map, Except.error.injEq] at h
            subst h
            rfl
  · rw [if_neg hen, if_neg hen]

lemma process_region_congr {Img : Type} (e : OcrEngine Img)
    (c c' : AngleClassifier Img) (hcl : e.classifier = some c)
    (hmap : ∀ i, (c.classify i).map Prod.fst = (c'.classify i).map Prod.fst)
    (image : Img) (bbox : Quad) (ds : ℚ) :
    process_region { e with classifier := some c' } image bbox ds
      = process_region e image bbox ds := by
  have e1 : process_region { e with classifier := some c' } image bbox ds
      = (do
          let (rotated, angle) ← classification_step { e with classifier := some c' }
              (e.crop_text_region image bbox)
          let (text, rec_score) ← recognition_step e rotated
          if rec_score ≥ e.config.recognition_threshold
              ∨ e.config.enable_recognition = false then
            pure (some { bbox := bbox, text := text, detection_score := ds,
                         recognition_score := rec_score, angle := angle })
          else pure none) := rfl
  have e2 : process_region e image bbox ds
      = (do
          let (rotated, angle) ← classification_step e (e.crop_text_region image bbox)
          let (text, rec_score) ← recognition_step e rotated
          if rec_score ≥ e.config.recognition_threshold
              ∨ e.config.enable_recognition = false then
            pure (some { bbox := bbox, text := text, detection_score := ds,
                         recognition_score := rec_score, angle := angle })
          else pure none) := rfl
  rw [e1, e2, classification_step_congr e c c' hcl hmap]

lemma process_regions_congr {Img : Type} (e : OcrEngine Img)
    (c c' : AngleClassifier Img) (hcl : e.classifier = some c)
    (hmap : ∀ i, (c.classify i).map Prod.fst = (c'.classify i).map Prod.fst)
    (image : Img) :
    ∀ pairs : List (Quad × ℚ),
      process_regions { e with classifier := some c' } image pairs
        = process_regions e image pairs
  | [] => rfl
  | (bbox, ds) :: rest => by
      have ea : process_regions { e with classifier := some c' } image
            ((bbox, ds) :: rest)
          = (do
              let tb' ← process_region { e with classifier := some c' } image bbox ds
              let tbs' ← process_regions { e with classifier := some c' } image rest
              match tb' with
              | some t => pure (t :: tbs')
              | none => pure tbs') := rfl
      have eb : process_regions e image ((bbox, ds) :: rest)
          = (do
              let tb' ← process_region e image bbox ds
              let tbs' ← process_regions e image rest
              match tb' with
              | some t => pure (t :: tbs')
              | none => pure tbs') := rfl
      rw [ea, eb, process_region_congr e c c' hcl hmap image bbox ds,
        process_regions_congr e c c' hcl hmap image rest]

/-- C10: the engine's rotation behavior is independent of the
classification confidence.  (1) Replacing the classifier by one that
reports the same angles (and errors) but arbitrary other confidences and
threshold leaves the whole `process` result unchanged.  (2) With
classification enabled, a cropped region is rotated 180° exactly when the
classifier reports angle 180, whatever the confidence.  (3) The
confidence threshold is consulted by `needs_rotation`/`auto_rotate`,
which rotate only when the confidence strictly exceeds it — so a
low-confidence 180° call rotates in the engine but not under
`auto_rotate`. -/
theorem rotation_ignores_confidence :
    (∀ (Img : Type) (e : OcrEngine Img) (image : Img)
        (c c' : AngleClassifier Img),
      e.classifier = some c →
      (∀ i, (c.classify i).map Prod.fst = (c'.classify i).map Prod.fst) →
      process { e with classifier := some c' } image = process e image)
    ∧ (∀ (Img : Type) (e : OcrEngine Img) (cropped : Img)
          (c : AngleClassifier Img) (conf : ℚ),
        e.classifier = some c → e.config.enable_classification = true →
        c.classify cropped = .ok (180, conf) →
        classification_step e cropped = .ok (e.rotate180 cropped, 180))
    ∧ (∀ (Img : Type) (rot : Img → Img) (c : AngleClassifier Img)
          (image : Img) (angle : ℤ) (conf : ℚ),
        c.classify image = .ok (angle, conf) →
        needs_rotation c image = .ok (decide (angle = 180 ∧ conf > c.threshold))
        ∧ (¬ conf > c.threshold → auto_rotate rot c image = .ok image)) := by
  refine ⟨?_, ?_, ?_⟩
  · intro Img e image c c' hcl hmap
    have eu' := process_unfold { e with classifier := some c' } image
    have eu := process_unfold e image
    rw [eu', eu]
    have hreg := process_regions_congr e c c' hcl hmap image
    simp only [hreg]
    rfl
  · intro Img e cropped c conf hcl hen hcf
    rw [classification_step_some hcl cropped, if_pos hen, hcf]
    rfl
  · intro Img rot c image angle conf hcf
    constructor
    · rw [needs_rotation, hcf]
      rfl
    · intro hconf
      have hb : needs_rotation c image = .ok false := by
        rw [needs_rotation, hcf]
        have hdec : decide (angle = 180 ∧ conf > c.threshold) = false := by
          simp [hconf]
        show Except.ok (decide (angle = 180 ∧ conf > c.threshold))
          = Except.ok false
        rw [hdec]
      rw [auto_rotate, hb]
      rfl

/-- A unit classifier that reports 180° with confidence 0.5, below its
0.9 threshold. -/
def lowConfClassifier : AngleClassifier Unit :=
  ⟨fun _ => .ok (180, 1/2), 9/10⟩

/-- The unit engine carrying the low-confidence classifier. -/
def unitEngineCls : OcrEngine Unit :=
  { unitEngine with classifier := some lowConfClassifier }

/-- C10 witness: on an angle-180 report at confidence 0.5 (below the 0.9
threshold) the engine still rotates the region, while `needs_rotation`
answers false and `auto_rotate` leaves the image unchanged. -/
theorem rotation_ignores_confidence_witness :
    classification_step unitEngineCls () = .ok ((), 180)
    ∧ needs_rotation lowConfClassifier () = .ok false
    ∧ auto_rotate (fun i => i) lowConfClassifier () = .ok () := by
  have h := rotation_ignores_confidence
  refine ⟨?_, ?_, ?_⟩
  · exact h.2.1 Unit unitEngineCls () lowConfClassifier (1/2) rfl rfl rfl
  · have h3 := (h.2.2 Unit (fun i => i) lowConfClassifier () 180 (1/2) rfl).1
    rw [h3]
    have hd : decide ((180 : ℤ) = 180 ∧ (1/2 : ℚ) > lowConfClassifier.threshold)
        = false := by
      with_unfolding_all decide
    rw [hd]
  · exact (h.2.2 Unit (fun i => i) lowConfClassifier () 180 (1/2) rfl).2
      (by with_unfolding_all decide)

end Incr
